import Mathlib

/-!
Verification of the NoteSmith structured-generation core.

The definitions below are a shallow embedding of the JavaScript source:
the chunk-planning policy of `Summary.createPrompt`, the two schema
validators (`CrashCourse.validateSchema`, `Summary.validateSchema`), the
user store (`generateUserId`, `insertUserSorted`, `findUserByID`), the
Express route handlers for crash courses, summaries, login and register,
and the dashboard pagination (`fetchCrashCoursesBatch`).

JavaScript values reachable from JSON are modelled by the inductive type
`JsValue` (with an extra `undefined` constructor for `undefined`); property
access on `null`/`undefined` raises, which the embedding models in the
`Except Unit` monad.  JS strings are Lean `String`s; the JS `<` on strings
(lexicographic code-unit comparison) is modelled by the lexicographic
order on their character lists.
-/

namespace NoteSmith

/-! ## JavaScript value model -/

/-- JSON-reachable JavaScript values, plus `undefined`. -/
inductive JsValue where
  | undefined : JsValue
  | null : JsValue
  | bool : Bool → JsValue
  | num : Int → JsValue
  | str : String → JsValue
  | arr : List JsValue → JsValue
  | obj : List (String × JsValue) → JsValue
  deriving Repr

/-- JavaScript `typeof`.  Note `typeof null === "object"`. -/
def typeOf : JsValue → String
  | .undefined => "undefined"
  | .null => "object"
  | .bool _ => "boolean"
  | .num _ => "number"
  | .str _ => "string"
  | .arr _ => "object"
  | .obj _ => "object"

/-- JavaScript `Array.isArray`. -/
def isArray : JsValue → Bool
  | .arr _ => true
  | _ => false

/-- JavaScript truthiness: `undefined`, `null`, `false`, `0`, `""` are falsy. -/
def truthy : JsValue → Bool
  | .undefined => false
  | .null => false
  | .bool b => b
  | .num n => n != 0
  | .str s => s != ""
  | .arr _ => true
  | .obj _ => true

/-- Property access `v[k]`.  On `null` or `undefined` this throws a
`TypeError` (modelled as `Except.error`); on other primitives and on
arrays a missing property reads as `undefined`. -/
def getField : JsValue → String → Except Unit JsValue
  | .undefined, _ => .error ()
  | .null, _ => .error ()
  | .obj fields, k =>
    .ok (match fields.lookup k with
      | some v => v
      | none => .undefined)
  | _, _ => .ok .undefined

/-- Strict equality `v === s` against a string literal: true exactly for
an equal string value (no coercion). -/
def strictEqStr (v : JsValue) (s : String) : Bool :=
  match v with
  | .str t => t == s
  | _ => false

/-- Insert one property into an object-literal field list: an existing
key is overwritten in place, a new key is appended (JS object-literal
semantics, where a later duplicate key keeps the first position but the
last value). -/
def objInsert (fields : List (String × JsValue)) (k : String) (v : JsValue) :
    List (String × JsValue) :=
  match fields with
  | [] => [(k, v)]
  | (k', v') :: rest =>
    if k' == k then (k', v) :: rest else (k', v') :: objInsert rest k v

/-- Build the field list of a JS object literal from the written
key/value sequence, applying duplicate-key overwrite. -/
def objLit (props : List (String × JsValue)) : List (String × JsValue) :=
  props.foldl (fun acc p => objInsert acc p.1 p.2) []

/-- JS spread `{...v}`: an object contributes its fields, an array and a
string contribute index-keyed entries, other primitives contribute
nothing. -/
def spreadFields : JsValue → List (String × JsValue)
  | .obj fields => fields
  | .arr elems => (elems.enum.map fun p => (toString p.1, p.2))
  | .str s => (s.data.enum.map fun p => (toString p.1, JsValue.str (toString p.2)))
  | _ => []

/-! ## SchemaValidator (CrashCourse.validateSchema, Summary.validateSchema)

Each validator is translated clause by clause from the source `||`
chains; the `Except Unit` monad records the one way the JS code can
throw, namely property access on a `null` element. -/

/-- One iteration of the inner subtopic loop of
`CrashCourse.validateSchema`. -/
def checkSubtopic (sub : JsValue) : Except Unit Bool := do
  if typeOf sub ≠ "object" then return false
  let t ← getField sub "title"
  if typeOf t ≠ "string" then return false
  let d ← getField sub "details"
  if typeOf d ≠ "string" then return false
  return true

/-- The subtopic loop of `CrashCourse.validateSchema`: `false` aborts the
whole validation. -/
def checkSubtopics : List JsValue → Except Unit Bool
  | [] => .ok true
  | sub :: rest => do
    let ok ← checkSubtopic sub
    if ok then checkSubtopics rest else return false

/-- One iteration of the topic loop of `CrashCourse.validateSchema`. -/
def checkTopic (topic : JsValue) : Except Unit Bool := do
  if typeOf topic ≠ "object" then return false
  let t ← getField topic "title"
  if typeOf t ≠ "string" then return false
  let d ← getField topic "description"
  if typeOf d ≠ "string" then return false
  let subs ← getField topic "subtopics"
  if ¬ isArray subs then return false
  match subs with
  | .arr elems =>
    if elems.length ≠ 3 then return false
    checkSubtopics elems
  | _ => return false

/-- The topic loop of `CrashCourse.validateSchema`. -/
def checkTopics : List JsValue → Except Unit Bool
  | [] => .ok true
  | topic :: rest => do
    let ok ← checkTopic topic
    if ok then checkTopics rest else return false

/-- `CrashCourse.validateSchema` from the client script. -/
def validateCrashCourse (v : JsValue) : Except Unit Bool := do
  if typeOf v ≠ "object" then return false
  let topic ← getField v "topic"
  if typeOf topic ≠ "string" then return false
  let summary ← getField v "summary"
  if typeOf summary ≠ "string" then return false
  let overview ← getField v "overview"
  if typeOf overview ≠ "string" then return false
  let mt ← getField v "main_topics"
  if ¬ isArray mt then return false
  let conclusion ← getField v "conclusion"
  if typeOf conclusion ≠ "string" then return false
  match mt with
  | .arr topics => checkTopics topics
  | _ => return false

/-- One iteration of the findings loop of `Summary.validateSchema`. -/
def checkFindings : List JsValue → Bool
  | [] => true
  | f :: rest => if typeOf f ≠ "string" then false else checkFindings rest

/-- One iteration of the points loop of `Summary.validateSchema`. -/
def checkPoints : List JsValue → Bool
  | [] => true
  | p :: rest => if typeOf p ≠ "string" then false else checkPoints rest

/-- One iteration of the section loop of `Summary.validateSchema`. -/
def checkSection (section' : JsValue) : Except Unit Bool := do
  if typeOf section' ≠ "object" then return false
  let pr ← getField section' "page_range"
  if typeOf pr ≠ "string" then return false
  let sp ← getField section' "summary_points"
  if ¬ isArray sp then return false
  match sp with
  | .arr points =>
    if points.length < 1 then return false
    return checkPoints points
  | _ => return false

/-- The section loop of `Summary.validateSchema`. -/
def checkSections : List JsValue → Except Unit Bool
  | [] => .ok true
  | s :: rest => do
    let ok ← checkSection s
    if ok then checkSections rest else return false

/-- `Summary.validateSchema` from the client script. -/
def validateSummary (v : JsValue) : Except Unit Bool := do
  if typeOf v ≠ "object" then return false
  let dt ← getField v "document_title"
  if typeOf dt ≠ "string" then return false
  let es ← getField v "executive_summary"
  if typeOf es ≠ "string" then return false
  let kf ← getField v "key_findings"
  if ¬ isArray kf then return false
  let kfLen := match kf with | .arr l => l.length | _ => 0
  if kfLen < 1 then return false
  let ss ← getField v "section_summaries"
  if ¬ isArray ss then return false
  let ssLen := match ss with | .arr l => l.length | _ => 0
  if ssLen < 1 then return false
  match kf, ss with
  | .arr findings, .arr sections =>
    if ¬ checkFindings findings then return false
    checkSections sections
  | _, _ => return false

mutual

/-- `null` does not occur anywhere inside the value. -/
def nullFree : JsValue → Bool
  | .null => false
  | .arr elems => nullFreeList elems
  | .obj fields => nullFreeFields fields
  | _ => true

/-- `nullFree` over every element of an array. -/
def nullFreeList : List JsValue → Bool
  | [] => true
  | v :: rest => nullFree v && nullFreeList rest

/-- `nullFree` over every field value of an object. -/
def nullFreeFields : List (String × JsValue) → Bool
  | [] => true
  | f :: rest => nullFree f.2 && nullFreeFields rest

end

/-! ### Specification-side schema predicate (for claim C2)

`goodCrashCourse` is written from the specification's words, not from
the code, so that the validator can be compared against it. -/

/-- Spec reading: a subtopic has a string `title` and string `details`. -/
def goodSubtopic (v : JsValue) : Bool :=
  match v with
  | .obj fields =>
    (match fields.lookup "title" with | some (.str _) => true | _ => false) &&
    (match fields.lookup "details" with | some (.str _) => true | _ => false)
  | _ => false

/-- Spec reading: a topic has a string `title`, a string `description`,
and a `subtopics` array of length exactly 3 of well-formed subtopics. -/
def goodTopic (v : JsValue) : Bool :=
  match v with
  | .obj fields =>
    (match fields.lookup "title" with | some (.str _) => true | _ => false) &&
    (match fields.lookup "description" with | some (.str _) => true | _ => false) &&
    (match fields.lookup "subtopics" with
      | some (.arr subs) => subs.length == 3 && subs.all goodSubtopic
      | _ => false)
  | _ => false

/-- Spec reading of a valid crash course object: string `topic`,
`summary`, `overview`, `conclusion`, and an array `main_topics` of
well-formed topics. -/
def goodCrashCourse (v : JsValue) : Bool :=
  match v with
  | .obj fields =>
    (match fields.lookup "topic" with | some (.str _) => true | _ => false) &&
    (match fields.lookup "summary" with | some (.str _) => true | _ => false) &&
    (match fields.lookup "overview" with | some (.str _) => true | _ => false) &&
    (match fields.lookup "conclusion" with | some (.str _) => true | _ => false) &&
    (match fields.lookup "main_topics" with
      | some (.arr topics) => topics.all goodTopic
      | _ => false)
  | _ => false

/-! ## ChunkPlanner (Summary.createPrompt)

`Summary.createPrompt` renders the chunk plan as prompt text.  The
functions below materialise that plan: the branch on `totalPages <= 20`,
the group-size step table, and the ranges the grouped prompt prescribes
("the first summary must cover pages 1 to groupSize, the next
groupSize+1 to groupSize*2, and so on, until the end of the document"). -/

/-- The group-size step table from the grouped branch of
`Summary.createPrompt`. -/
def promptGroupSize (totalPages : Nat) : Nat :=
  if totalPages ≤ 40 then 5
  else if totalPages ≤ 75 then 10
  else if totalPages ≤ 150 then 20
  else if totalPages ≤ 300 then 25
  else 50

/-- Whether the prompt asks for one summary per page or one per group. -/
inductive ChunkMode where
  | perPage : ChunkMode
  | grouped : ChunkMode
  deriving DecidableEq, Repr

/-- Successive inclusive chunks of `g` pages starting at page `s`,
continuing to the end of an `n`-page document (the final chunk is
truncated at `n`).  `fuel` bounds the recursion; `n` steps always
suffice since each chunk consumes at least one page. -/
def chunkRangesGo (g n : Nat) : Nat → Nat → List (Nat × Nat)
  | 0, _ => []
  | fuel + 1, s =>
    if s ≤ n then (s, min (s + g - 1) n) :: chunkRangesGo g n fuel (min (s + g - 1) n + 1)
    else []

/-- All chunks of size `g` covering pages `1..n`. -/
def chunkRanges (g n : Nat) : List (Nat × Nat) :=
  chunkRangesGo g n n 1

/-- The chunk plan embedded in the prompt built by
`Summary.createPrompt` for a document of `totalPages` pages. -/
def createPlan (totalPages : Nat) : ChunkMode × List (Nat × Nat) :=
  if totalPages ≤ 20 then
    (ChunkMode.perPage, (List.range totalPages).map fun i => (i + 1, i + 1))
  else
    (ChunkMode.grouped, chunkRanges (promptGroupSize totalPages) totalPages)

/-! ## JavaScript string primitives

`generateUserId` relies on `String(n)`, `padStart`, `split` and
`parseInt`; they are modelled below on character lists.  The JS `<` on
strings (lexicographic comparison) is modelled by the lexicographic
order on `String.data`. -/

/-- The character of a single decimal digit. -/
def digitChar (d : Nat) : Char := Char.ofNat (48 + d)

/-- Decimal rendering, fueled so that it is structural (`n + 1` steps
always suffice since each step strips one digit). -/
def natToCharsGo : Nat → Nat → List Char
  | 0, _ => []
  | fuel + 1, n =>
    if n < 10 then [digitChar n]
    else natToCharsGo fuel (n / 10) ++ [digitChar (n % 10)]

/-- Decimal rendering of a natural number (JS `String(n)` for a
non-negative integer). -/
def natToChars (n : Nat) : List Char := natToCharsGo (n + 1) n

/-- JS `String(i)` for an integer. -/
def intToChars (i : Int) : List Char :=
  if i < 0 then '-' :: natToChars i.natAbs else natToChars i.toNat

/-- JS `String(x)` where `x` is a number or `NaN` (`none`). -/
def jsNumToString : Option Int → String
  | none => "NaN"
  | some i => ⟨intToChars i⟩

/-- JS `s.padStart(target, pad)`. -/
def jsPadStart (target : Nat) (pad : Char) (s : String) : String :=
  ⟨List.replicate (target - s.data.length) pad ++ s.data⟩

/-- JS `s.split(sep)` on character lists: `"a__b"` splits into
`["a", "", "b"]`. -/
def splitChs (sep : Char) : List Char → List (List Char)
  | [] => [[]]
  | c :: rest =>
    if c = sep then [] :: splitChs sep rest
    else
      match splitChs sep rest with
      | [] => [[c]]
      | grp :: groups => (c :: grp) :: groups

/-- JS `s.split(sep)` for a one-character separator. -/
def jsSplit (sep : Char) (s : String) : List String :=
  (splitChs sep s.data).map fun l => ⟨l⟩

/-- The maximal run of decimal digits at the front of the input. -/
def leadingDigits : List Char → List Char
  | [] => []
  | c :: rest => if c.isDigit then c :: leadingDigits rest else []

/-- Numeric value of a digit run, most significant digit first. -/
def digitsVal (ds : List Char) : Nat :=
  ds.foldl (fun acc c => 10 * acc + (c.toNat - 48)) 0

/-- JS `parseInt(s)` restricted to base 10 inputs as they occur here: an
optional sign followed by digits; no digits at the front gives `NaN`
(`none`). -/
def jsParseInt (s : String) : Option Int :=
  match s.data with
  | [] => none
  | c :: rest =>
    if c = '-' then
      match leadingDigits rest with
      | [] => none
      | ds => some (-(digitsVal ds : Int))
    else if c = '+' then
      match leadingDigits rest with
      | [] => none
      | ds => some (digitsVal ds)
    else
      match leadingDigits (c :: rest) with
      | [] => none
      | ds => some (digitsVal ds)

/-- Parse a string made entirely of digits, as array index access does. -/
def strToNat (s : String) : Option Nat :=
  match s.data with
  | [] => none
  | cs => if cs.all Char.isDigit then some (digitsVal cs) else none

/-! ## UserStore (userManager.js) -/

/-- A stored user record (`users.json` entry). -/
structure User where
  id : String
  username : String
  email : String
  password : String
  createdAt : String
  profilePicture : String
  crashCourses : List JsValue
  summaries : List JsValue
  deriving Repr

/-- `generateUserId` from `userManager.js`: `"user_001"` on an empty
store, otherwise one more than the parsed numeric suffix of the last
stored user's id, zero-padded to width 3. -/
def generateUserId (users : List User) : String :=
  match users.getLast? with
  | none => "user_001"
  | some lastUser =>
    let lastIdNum : Option Int :=
      match (jsSplit '_' lastUser.id).get? 1 with
      | none => none
      | some suffix => jsParseInt suffix
    let newIdNum : Option Int := lastIdNum.map (· + 1)
    "user_" ++ jsPadStart 3 '0' (jsNumToString newIdNum)

/-- `insertUserSorted` from `userManager.js`: despite the name it
appends the new user at the end (`push`). -/
def insertUserSorted (users : List User) (newUser : User) : List User :=
  users ++ [newUser]

/-- JS string comparison `s < t` (lexicographic). -/
def jsStrLt (s t : String) : Prop := s.data < t.data

instance (s t : String) : Decidable (jsStrLt s t) :=
  inferInstanceAs (Decidable (s.data < t.data))

/-- The `BinarySearch` loop inside `findUserByID`.  `left`/`right` are
the JS integer bounds; `Math.floor((left+right)/2)` is integer floor
division.  `fuel` makes the recursion structural; the window shrinks at
every step, so `users.length + 1` steps always suffice.  The `none`
fallback for an out-of-range probe is unreachable from `findUserByID`,
which starts with bounds inside the collection. -/
def binarySearchGo (users : List User) (targetId : String) :
    Nat → Int → Int → Option User
  | 0, _, _ => none
  | fuel + 1, left, right =>
    if left ≤ right then
      let mid := (left + right) / 2
      match users.get? mid.toNat with
      | none => none
      | some u =>
        if u.id = targetId then some u
        else if jsStrLt u.id targetId then binarySearchGo users targetId fuel (mid + 1) right
        else binarySearchGo users targetId fuel left (mid - 1)
    else none

/-- `findUserByID` from `userManager.js`. -/
def findUserByID (users : List User) (userId : String) : Option User :=
  binarySearchGo users userId (users.length + 1) 0 ((users.length : Int) - 1)

/-- The ids of the stored users, in storage order. -/
def idsOf (users : List User) : List String := users.map fun u => u.id

/-- The user collection is sorted strictly by id string (the invariant
binary search relies on). -/
def sortedById (users : List User) : Prop :=
  List.Pairwise (fun a b => jsStrLt a.id b.id) users

instance (users : List User) : Decidable (sortedById users) :=
  inferInstanceAs (Decidable (List.Pairwise (fun a b : User => jsStrLt a.id b.id) users))

/-- All stored ids are distinct. -/
def uniqueIds (users : List User) : Prop := (idsOf users).Nodup

instance (users : List User) : Decidable (uniqueIds users) :=
  inferInstanceAs (Decidable (List.Nodup (idsOf users)))

/-- The id the store allocates for the `k`-th user: `"user_"` plus the
decimal of `k` zero-padded to width 3. -/
def mkUserId (k : Nat) : String :=
  "user_" ++ jsPadStart 3 '0' ⟨natToChars k⟩

/-! ## HTTP layer modelling -/

/-- An HTTP response: status code and JSON body. -/
structure ApiResponse where
  status : Nat
  body : JsValue
  deriving Repr

/-- A route outcome: the response plus the user store after the request
(`writeUsers` made visible). -/
structure RouteResult where
  status : Nat
  body : JsValue
  users : List User
  deriving Repr

/-- The upstream generative backend's reply as seen by the route:
`response.ok` and the parsed response body. -/
structure Upstream where
  ok : Bool
  data : JsValue
  deriving Repr

/-- `{ error: msg }`. -/
def errBody (msg : String) : JsValue := .obj [("error", .str msg)]

/-- `{ success: true }`. -/
def successBody : JsValue := .obj [("success", .bool true)]

/-! ## Auth routes (routes/auth.js) -/

/-- The user object placed in a successful login/register response
body: exactly `id`, `username`, `email`, `profilePicture`. -/
def publicUserObj (u : User) : JsValue :=
  .obj [("id", .str u.id), ("username", .str u.username),
        ("email", .str u.email), ("profilePicture", .str u.profilePicture)]

/-- `POST /api/login`.  Credentials are `Option String` because the
request body may omit them; an empty string is falsy like a missing
field. -/
def loginRoute (users : List User) (username password : Option String) :
    ApiResponse :=
  match username, password with
  | some uname, some pwd =>
    if uname = "" ∨ pwd = "" then
      ⟨400, .obj [("success", .bool false), ("error", .str "Username and password required")]⟩
    else
      match users.find? (fun u => u.username == uname && u.password == pwd) with
      | some u => ⟨200, .obj [("success", .bool true), ("user", publicUserObj u)]⟩
      | none => ⟨401, .obj [("success", .bool false), ("error", .str "Invalid credentials")]⟩
  | _, _ =>
    ⟨400, .obj [("success", .bool false), ("error", .str "Username and password required")]⟩

/-- The inputs of one `POST /api/register` request; `nowIso` stands for
`new Date().toISOString()`. -/
structure RegInput where
  username : Option String
  email : Option String
  password : Option String
  profilePicture : Option String
  nowIso : String
  deriving Repr

/-- `POST /api/register`: duplicate check, id allocation, insertion,
and the response carrying the public projection of the new user. -/
def registerRoute (users : List User) (inp : RegInput) :
    ApiResponse × List User :=
  match inp.username, inp.email, inp.password with
  | some uname, some em, some pwd =>
    if uname = "" ∨ em = "" ∨ pwd = "" then
      (⟨400, .obj [("success", .bool false), ("error", .str "Username, email, and password required")]⟩, users)
    else if (users.find? fun u => u.username == uname || u.email == em).isSome then
      (⟨409, .obj [("success", .bool false), ("error", .str "User already exists")]⟩, users)
    else
      let newUser : User :=
        { id := generateUserId users
          username := uname
          email := em
          password := pwd
          createdAt := inp.nowIso
          profilePicture := match inp.profilePicture with
            | some p => if p ≠ "" then p else ""
            | none => ""
          crashCourses := []
          summaries := [] }
      (⟨200, .obj [("success", .bool true), ("user", publicUserObj newUser)]⟩,
        insertUserSorted users newUser)
  | _, _, _ =>
    (⟨400, .obj [("success", .bool false), ("error", .str "Username, email, and password required")]⟩, users)

/-- The store after a sequence of register requests starting from the
empty store, the `n`-th request taking inputs `f n`. -/
def storeAfter (f : Nat → RegInput) : Nat → List User
  | 0 => []
  | n + 1 => (registerRoute (storeAfter f n) (f n)).2

/-- A concrete register-request sequence with pairwise distinct
usernames and emails (request `i` registers username `u<i>`). -/
def regSeq (i : Nat) : RegInput :=
  { username := some ⟨'u' :: natToChars i⟩
    email := some ⟨'e' :: natToChars i⟩
    password := some "p"
    profilePicture := none
    nowIso := "t" }

/-- The user record the `i`-th request of `regSeq` (0-based) ends up
storing. -/
def mkStoredUser (i : Nat) : User :=
  { id := mkUserId (i + 1)
    username := ⟨'u' :: natToChars i⟩
    email := ⟨'e' :: natToChars i⟩
    password := "p"
    createdAt := "t"
    profilePicture := ""
    crashCourses := []
    summaries := [] }

/-! ## JSON.parse model

A fueled recursive-descent parser producing `JsValue`, covering the
JSON fragment the pipeline exchanges: `null`, booleans, (signed)
integers, strings with the common escapes, arrays and objects. -/

/-- Skip JSON whitespace. -/
def skipWs : List Char → List Char
  | c :: rest => if c = ' ' ∨ c = '\n' ∨ c = '\t' ∨ c = '\r' then skipWs rest else c :: rest
  | [] => []

/-- One string-escape character (the self-representing escapes plus
`\n`, `\t`, `\r`). -/
def escChar (e : Char) : Option Char :=
  if e = '"' ∨ e = '\\' ∨ e = '/' then some e
  else if e = 'n' then some '\n'
  else if e = 't' then some '\t'
  else if e = 'r' then some '\r'
  else none

/-- Parse the remainder of a JSON string literal (the opening quote
already consumed), returning its characters and the rest of the input. -/
def parseStringRest : List Char → Option (List Char × List Char)
  | [] => none
  | '"' :: rest => some ([], rest)
  | '\\' :: e :: rest => do
    let c ← escChar e
    let (s, r) ← parseStringRest rest
    return (c :: s, r)
  | c :: rest => do
    let (s, r) ← parseStringRest rest
    return (c :: s, r)

/-- Strip an expected literal (such as `null`/`true`/`false`) from the
front of the input, or fail. -/
def stripLit : List Char → List Char → Option (List Char)
  | [], rest => some rest
  | k :: ks, c :: rest => if c = k then stripLit ks rest else none
  | _ :: _, [] => none

mutual

/-- Parse one JSON value; `fuel` bounds nesting and list length. -/
def parseVal : Nat → List Char → Option (JsValue × List Char)
  | 0, _ => none
  | fuel + 1, cs =>
    let t := skipWs cs
    match stripLit "null".data t with
    | some rest => some (.null, rest)
    | none =>
    match stripLit "true".data t with
    | some rest => some (.bool true, rest)
    | none =>
    match stripLit "false".data t with
    | some rest => some (.bool false, rest)
    | none =>
    match t with
    | '"' :: rest => do
      let (s, r) ← parseStringRest rest
      return (.str ⟨s⟩, r)
    | '[' :: rest =>
      (match skipWs rest with
        | ']' :: r => some (.arr [], r)
        | _ => parseArrItems fuel rest)
    | '{' :: rest =>
      (match skipWs rest with
        | '}' :: r => some (.obj [], r)
        | _ => parseObjItems fuel rest)
    | '-' :: rest =>
      (match leadingDigits rest with
        | [] => none
        | ds => some (.num (-(digitsVal ds : Int)), rest.drop ds.length))
    | other =>
      (match leadingDigits other with
        | [] => none
        | ds => some (.num (digitsVal ds), other.drop ds.length))

/-- Parse the comma-separated items of a non-empty JSON array. -/
def parseArrItems : Nat → List Char → Option (JsValue × List Char)
  | 0, _ => none
  | fuel + 1, cs => do
    let (v, rest) ← parseVal fuel cs
    match skipWs rest with
    | ',' :: r =>
      match parseArrItems fuel r with
      | some (.arr vs, r') => some (.arr (v :: vs), r')
      | _ => none
    | ']' :: r => some (.arr [v], r)
    | _ => none

/-- Parse the comma-separated members of a non-empty JSON object. -/
def parseObjItems : Nat → List Char → Option (JsValue × List Char)
  | 0, _ => none
  | fuel + 1, cs =>
    match skipWs cs with
    | '"' :: kstart => do
      let (k, afterKey) ← parseStringRest kstart
      match skipWs afterKey with
      | ':' :: afterColon => do
        let (v, rest) ← parseVal fuel afterColon
        match skipWs rest with
        | ',' :: r =>
          (match parseObjItems fuel r with
            | some (.obj fs, r') => some (.obj ((⟨k⟩, v) :: fs), r')
            | _ => none)
        | '}' :: r => some (.obj [(⟨k⟩, v)], r)
        | _ => none
      | _ => none
    | _ => none

end

/-- `JSON.parse` on the fragment above: `none` models a thrown
`SyntaxError`. -/
def jsonParse (s : String) : Option JsValue :=
  match parseVal (2 * s.data.length + 2) s.data with
  | some (v, rest) => if skipWs rest = [] then some v else none
  | none => none

/-! ## Gemini envelope extraction -/

/-- Property read used after a truthiness check (the receiver is known
not to be `null`/`undefined`, so no throw): object field lookup, array
numeric indexing, otherwise `undefined`. -/
def getPropD : JsValue → String → JsValue
  | .obj fields, k => (fields.lookup k).getD .undefined
  | .arr elems, k =>
    (match strToNat k with
      | some i => (elems.get? i).getD .undefined
      | none => .undefined)
  | _, _ => .undefined

/-- The guarded chain
`data && data.candidates && data.candidates[0] && … .parts[0].text`
shared by `checkForResponse` and both server routes: each link must be
truthy, and the final `text` is returned. -/
def envText (data : JsValue) : Option String :=
  if ¬ truthy data then none else
  let c := getPropD data "candidates"
  if ¬ truthy c then none else
  let c0 := getPropD c "0"
  if ¬ truthy c0 then none else
  let ct := getPropD c0 "content"
  if ¬ truthy ct then none else
  let ps := getPropD ct "parts"
  if ¬ truthy ps then none else
  let p0 := getPropD ps "0"
  if ¬ truthy p0 then none else
  let tx := getPropD p0 "text"
  if ¬ truthy tx then none else
  match tx with
  | .str s => some s
  | _ => none

/-! ## Crash-course and summary routes -/

/-- Replace the user at index `i`. -/
def updateUserAt (users : List User) (i : Nat) (f : User → User) : List User :=
  users.modify f i

/-- The artifact object
`{ id: "cc_<now>", createdAt: nowIso, ...content }` (crash course) —
object-literal semantics, a spread key overwriting a base key. -/
def crashCourseArtifact (now : Nat) (nowIso : String) (content : JsValue) : JsValue :=
  .obj (objLit (("id", .str ("cc_" ++ ⟨natToChars now⟩)) ::
    ("createdAt", .str nowIso) :: spreadFields content))

/-- The artifact object
`{ id: "sum_<now>", createdAt: nowIso, fileName, ...content }`. -/
def summaryArtifact (now : Nat) (nowIso fileName : String) (content : JsValue) : JsValue :=
  .obj (objLit (("id", .str ("sum_" ++ ⟨natToChars now⟩)) ::
    ("createdAt", .str nowIso) :: ("fileName", .str fileName) :: spreadFields content))

/-- `POST /api/crash-course` (routes/crashCourse.js, the structured
-output version): persists the parsed payload by `unshift` when a
truthy `userId` addresses an existing user and the envelope text parses
as JSON to a truthy value; `JSON.parse` failure is caught and leaves
the content `null`. -/
def postCrashCourseRoute (users : List User) (prompt userId : JsValue)
    (up : Upstream) (now : Nat) (nowIso : String) : RouteResult :=
  if ¬ truthy prompt then ⟨400, errBody "No prompt provided", users⟩
  else if ¬ up.ok then ⟨500, errBody "Gemini API error", users⟩
  else
    let content : Option JsValue :=
      match envText up.data with
      | none => none
      | some text => jsonParse text
    let contentTruthy := match content with
      | some v => truthy v
      | none => false
    if truthy userId && contentTruthy then
      match users.findIdx? (fun u => strictEqStr userId u.id), content with
      | some i, some v =>
        let artifact := crashCourseArtifact now nowIso v
        ⟨200, up.data,
          updateUserAt users i fun u => { u with crashCourses := artifact :: u.crashCourses }⟩
      | _, _ => ⟨200, up.data, users⟩
    else ⟨200, up.data, users⟩

/-- `POST /api/summary` (routes/summary.js): like the crash-course
route but `JSON.parse` is not wrapped in a `try`, so a parse failure
propagates to the route's `catch` and yields a 500 with no write; the
stored artifact also records the uploaded `fileName`. -/
def postSummaryRoute (users : List User) (file : Option String)
    (prompt userId : JsValue) (up : Upstream) (now : Nat) (nowIso : String) :
    RouteResult :=
  match file with
  | none => ⟨400, errBody "No PDF file uploaded", users⟩
  | some fileName =>
    if ¬ truthy prompt then ⟨400, errBody "No prompt provided", users⟩
    else if ¬ up.ok then ⟨500, errBody "Gemini API error", users⟩
    else
      match envText up.data with
      | some text =>
        match jsonParse text with
        | none => ⟨500, errBody "JSON.parse error", users⟩
        | some v =>
          if truthy userId && truthy v then
            match users.findIdx? (fun u => strictEqStr userId u.id) with
            | some i =>
              let artifact := summaryArtifact now nowIso fileName v
              ⟨200, up.data,
                updateUserAt users i fun u => { u with summaries := artifact :: u.summaries }⟩
            | none => ⟨200, up.data, users⟩
          else ⟨200, up.data, users⟩
      | none => ⟨200, up.data, users⟩

/-- The older crash-course route concatenated after `auth.js`: it does
not parse the envelope, stores `{ id, createdAt, prompt, content: data }`,
and appends with `push` instead of `unshift`. -/
def legacyPostCrashCourseRoute (users : List User) (prompt userId : JsValue)
    (up : Upstream) (now : Nat) (nowIso : String) : RouteResult :=
  if ¬ truthy prompt then ⟨400, errBody "No prompt provided", users⟩
  else if ¬ up.ok then ⟨500, errBody "Gemini API error", users⟩
  else
    if truthy userId then
      match users.findIdx? (fun u => strictEqStr userId u.id) with
      | some i =>
        let artifact : JsValue :=
          .obj [("id", .str ("cc_" ++ ⟨natToChars now⟩)),
                ("createdAt", .str nowIso),
                ("prompt", prompt),
                ("content", up.data)]
        ⟨200, up.data,
          updateUserAt users i fun u => { u with crashCourses := u.crashCourses ++ [artifact] }⟩
      | none => ⟨200, up.data, users⟩
    else ⟨200, up.data, users⟩

/-- The artifact filter of the delete routes
(`artifacts.filter(a => a.id !== artifactId)`): reading `a.id` throws
on a `null`/`undefined` element, surfacing as the route's 500. -/
def filterByIdNe (artifacts : List JsValue) (artifactId : String) :
    Except Unit (List JsValue) :=
  match artifacts with
  | [] => .ok []
  | a :: rest => do
    let idv ← getField a "id"
    let rest' ← filterByIdNe rest artifactId
    return (if ¬ strictEqStr idv artifactId then a :: rest' else rest')

/-- `DELETE /api/crash-course/user/:userId/:courseId`: 404 only when
the user id is unknown; otherwise filter and report success. -/
def deleteCrashCourseRoute (users : List User) (userId courseId : String) :
    RouteResult :=
  match users.findIdx? (fun u => u.id == userId) with
  | none => ⟨404, errBody "User not found", users⟩
  | some i =>
    match users.get? i with
    | none => ⟨500, errBody "TypeError", users⟩
    | some u =>
      match filterByIdNe u.crashCourses courseId with
      | .error _ => ⟨500, errBody "TypeError", users⟩
      | .ok filtered =>
        ⟨200, successBody, updateUserAt users i fun v => { v with crashCourses := filtered }⟩

/-- `DELETE /api/summary/user/:userId/:summaryId`. -/
def deleteSummaryRoute (users : List User) (userId summaryId : String) :
    RouteResult :=
  match users.findIdx? (fun u => u.id == userId) with
  | none => ⟨404, errBody "User not found", users⟩
  | some i =>
    match users.get? i with
    | none => ⟨500, errBody "TypeError", users⟩
    | some u =>
      match filterByIdNe u.summaries summaryId with
      | .error _ => ⟨500, errBody "TypeError", users⟩
      | .ok filtered =>
        ⟨200, successBody, updateUserAt users i fun v => { v with summaries := filtered }⟩

/-! ## HistoryService (dashboard.js fetch*Batch) -/

/-- One pagination batch:
`{ items: slice(startIndex, startIndex+limit), hasMore, total }`. -/
def listBatch (items : List JsValue) (startIndex limit : Nat) :
    List JsValue × Bool × Nat :=
  ((items.drop startIndex).take limit,
    decide (startIndex + limit < items.length),
    items.length)

/-! # Theorems -/

/-! ## Helper lemmas -/

@[simp] theorem exceptOkBind {ε α β : Type} (a : α) (f : α → Except ε β) :
    ((Except.ok a : Except ε α) >>= f) = f a := rfl

@[simp] theorem exceptErrorBind {ε α β : Type} (e : ε) (f : α → Except ε β) :
    ((Except.error e : Except ε α) >>= f) = Except.error e := rfl

@[simp] theorem exceptPureEq {ε α : Type} (a : α) :
    (pure a : Except ε α) = Except.ok a := rfl

theorem updateUserAt_self {users : List User} {i : Nat} {u : User} {f : User → User}
    (hget : users[i]? = some u) (hf : f u = u) : updateUserAt users i f = users := by
  induction users generalizing i with
  | nil => simp [updateUserAt]
  | cons w rest ih =>
    cases i with
    | zero =>
      simp only [List.getElem?_cons_zero, Option.some.injEq] at hget
      subst hget
      simp [updateUserAt, List.modify, hf]
    | succ j =>
      simp only [List.getElem?_cons_succ] at hget
      have := ih (i := j) hget
      simpa [updateUserAt, List.modify] using this

theorem filterByIdNe_no_match {artifacts : List JsValue} {artifactId : String}
    (h : ∀ a ∈ artifacts, ∃ fs, a = JsValue.obj fs ∧
      ∀ w, fs.lookup "id" = some w → w ≠ JsValue.str artifactId) :
    filterByIdNe artifacts artifactId = .ok artifacts := by
  induction artifacts with
  | nil => rfl
  | cons a rest ih =>
    obtain ⟨fs, rfl, hw⟩ := h a (List.mem_cons_self a rest)
    have hrest := ih fun b hb => h b (List.mem_cons_of_mem _ hb)
    simp only [filterByIdNe, getField, hrest]
    cases hfind : fs.lookup "id" with
    | none => rfl
    | some w =>
      have hne := hw w hfind
      cases w with
      | str s =>
        have hs : (s == artifactId) = false := by
          apply beq_eq_false_iff_ne.mpr
          intro hcontra
          exact hne (by rw [hcontra])
        show Except.ok
          (if ¬ (s == artifactId) = true then JsValue.obj fs :: rest else rest) =
          Except.ok (JsValue.obj fs :: rest)
        rw [hs]
        simp
      | undefined => rfl
      | null => rfl
      | bool b => rfl
      | num n => rfl
      | arr l => rfl
      | obj l => rfl

/-! ## Claim C7: DELETE with existing user but unknown artifact id -/

/-- Claim C7, counterexample: with the addressed user present but no
artifact bearing the requested id, both delete routes answer 200
success, not 404. -/
theorem delete_missing_artifact_not_404 :
    (deleteCrashCourseRoute
      [{ id := "user_001", username := "a", email := "e", password := "p",
         createdAt := "", profilePicture := "",
         crashCourses := [.obj [("id", .str "cc_1")]], summaries := [] }]
      "user_001" "cc_2").status = 200 ∧
    (deleteCrashCourseRoute
      [{ id := "user_001", username := "a", email := "e", password := "p",
         createdAt := "", profilePicture := "",
         crashCourses := [.obj [("id", .str "cc_1")]], summaries := [] }]
      "user_001" "cc_2").status ≠ 404 ∧
    (deleteSummaryRoute
      [{ id := "user_001", username := "a", email := "e", password := "p",
         createdAt := "", profilePicture := "",
         crashCourses := [], summaries := [.obj [("id", .str "sum_1")]] }]
      "user_001" "sum_2").status = 200 := by
  refine ⟨rfl, by decide, rfl⟩

/-- Claim C7 (amended): when the addressed user exists and none of the
user's artifacts of the requested kind bears the given artifact id, the
delete route does not fail with 404 — it filters nothing and responds
200 success with the store unchanged.  404 is reserved for an unknown
user. -/
theorem delete_missing_artifact_succeeds :
    (∀ users i u uid cid, users.findIdx? (fun w => w.id == uid) = some i →
      users[i]? = some u →
      (∀ a ∈ u.crashCourses, ∃ fs, a = JsValue.obj fs ∧
        ∀ w, fs.lookup "id" = some w → w ≠ JsValue.str cid) →
      deleteCrashCourseRoute users uid cid = ⟨200, successBody, users⟩) ∧
    (∀ users i u uid sid, users.findIdx? (fun w => w.id == uid) = some i →
      users[i]? = some u →
      (∀ a ∈ u.summaries, ∃ fs, a = JsValue.obj fs ∧
        ∀ w, fs.lookup "id" = some w → w ≠ JsValue.str sid) →
      deleteSummaryRoute users uid sid = ⟨200, successBody, users⟩) := by
  constructor
  · intro users i u uid cid hfind hget hno
    have hfilter := filterByIdNe_no_match hno
    have hupd : updateUserAt users i (fun v => { v with crashCourses := u.crashCourses }) = users :=
      updateUserAt_self hget rfl
    simp [deleteCrashCourseRoute, hfind, hget, hfilter, hupd]
  · intro users i u uid sid hfind hget hno
    have hfilter := filterByIdNe_no_match hno
    have hupd : updateUserAt users i (fun v => { v with summaries := u.summaries }) = users :=
      updateUserAt_self hget rfl
    simp [deleteSummaryRoute, hfind, hget, hfilter, hupd]

/-- Witness for the amended C7 theorem at a concrete one-user store. -/
theorem delete_missing_artifact_succeeds_witness :
    deleteCrashCourseRoute
      [{ id := "user_001", username := "a", email := "e", password := "p",
         createdAt := "", profilePicture := "",
         crashCourses := [], summaries := [] }]
      "user_001" "cc_9" =
      ⟨200, successBody,
        [{ id := "user_001", username := "a", email := "e", password := "p",
           createdAt := "", profilePicture := "",
           crashCourses := [], summaries := [] }]⟩ :=
  delete_missing_artifact_succeeds.1 _ 0 _ "user_001" "cc_9" rfl rfl
    (by intro a ha; cases ha)

/-! ## Claim C10: login/register responses expose only public fields -/

/-- Claim C10: every successful login or register response carries a
user object that is exactly the four-field public projection — `id`,
`username`, `email`, `profilePicture` — and in particular contains no
`password`, `createdAt`, `crashCourses` or `summaries` field. -/
theorem auth_success_responses_public_only :
    (∀ users uname pwd, (loginRoute users uname pwd).status = 200 →
      ∃ u, (loginRoute users uname pwd).body =
        .obj [("success", .bool true), ("user", publicUserObj u)]) ∧
    (∀ users inp, (registerRoute users inp).1.status = 200 →
      ∃ u, (registerRoute users inp).1.body =
        .obj [("success", .bool true), ("user", publicUserObj u)]) ∧
    (∀ u fs, publicUserObj u = JsValue.obj fs →
      fs.map Prod.fst = ["id", "username", "email", "profilePicture"] ∧
      fs.lookup "id" = some (.str u.id) ∧
      fs.lookup "username" = some (.str u.username) ∧
      fs.lookup "email" = some (.str u.email) ∧
      fs.lookup "profilePicture" = some (.str u.profilePicture) ∧
      fs.lookup "password" = none ∧
      fs.lookup "createdAt" = none ∧
      fs.lookup "crashCourses" = none ∧
      fs.lookup "summaries" = none) := by
  refine ⟨?_, ?_, ?_⟩
  · intro users uname pwd hstatus
    match uname, pwd with
    | some un, some pw =>
      by_cases hempty : un = "" ∨ pw = ""
      · simp [loginRoute, hempty] at hstatus
      · cases hfind : users.find? (fun w => w.username == un && w.password == pw) with
        | none => simp [loginRoute, hempty, hfind] at hstatus
        | some u =>
          refine ⟨u, ?_⟩
          simp [loginRoute, hempty, hfind]
    | some un, none => simp [loginRoute] at hstatus
    | none, some pw => simp [loginRoute] at hstatus
    | none, none => simp [loginRoute] at hstatus
  · intro users inp hstatus
    match hu : inp.username, he : inp.email, hp : inp.password with
    | some un, some em, some pw =>
      by_cases hempty : un = "" ∨ em = "" ∨ pw = ""
      · simp [registerRoute, hu, he, hp, hempty] at hstatus
      · by_cases hdup : (users.find? fun w => w.username == un || w.email == em).isSome
        · simp [registerRoute, hu, he, hp, hempty, hdup] at hstatus
        · refine Exists.intro
            { id := generateUserId users
              username := un
              email := em
              password := pw
              createdAt := inp.nowIso
              profilePicture := (match inp.profilePicture with
                | some p => if p ≠ "" then p else ""
                | none => "")
              crashCourses := []
              summaries := [] } ?_
          simp [registerRoute, hu, he, hp, hempty, hdup]
    | some un, some em, none => simp [registerRoute, hu, he, hp] at hstatus
    | some un, none, _ => simp [registerRoute, hu, he] at hstatus
    | none, _, _ => simp [registerRoute, hu] at hstatus
  · intro u fs heq
    cases heq
    refine ⟨rfl, rfl, ?_, ?_, ?_, ?_, ?_, ?_, ?_⟩ <;> rfl

/-- Witness for C10 at a concrete one-user store. -/
theorem auth_success_responses_public_only_witness :
    (∃ u, (loginRoute
      [{ id := "user_001", username := "alice", email := "e", password := "py",
         createdAt := "c", profilePicture := "pic",
         crashCourses := [], summaries := [] }] (some "alice") (some "py")).body =
        .obj [("success", .bool true), ("user", publicUserObj u)]) ∧
    (∃ u, ((registerRoute []
      { username := some "bob", email := some "b@x", password := some "pw",
        profilePicture := none, nowIso := "t" }).1.body =
        .obj [("success", .bool true), ("user", publicUserObj u)])) ∧
    ((publicUserObj
      { id := "user_001", username := "alice", email := "e", password := "py",
        createdAt := "c", profilePicture := "pic",
        crashCourses := [], summaries := [] }) =
      JsValue.obj [("id", .str "user_001"), ("username", .str "alice"),
        ("email", .str "e"), ("profilePicture", .str "pic")] ∧
      ([("id", JsValue.str "user_001"), ("username", JsValue.str "alice"),
        ("email", JsValue.str "e"),
        ("profilePicture", JsValue.str "pic")].lookup "password" = none)) :=
  ⟨auth_success_responses_public_only.1 _ (some "alice") (some "py") rfl,
   auth_success_responses_public_only.2.1 _ _ rfl,
   rfl,
   (auth_success_responses_public_only.2.2
     { id := "user_001", username := "alice", email := "e", password := "py",
       createdAt := "c", profilePicture := "pic",
       crashCourses := [], summaries := [] }
     [("id", JsValue.str "user_001"), ("username", JsValue.str "alice"),
      ("email", JsValue.str "e"), ("profilePicture", JsValue.str "pic")]
     rfl).2.2.2.2.2.1⟩

/-! ## Claim C9: persisted artifacts are prepended (most-recent-first) -/

/-- Claim C9, counterexample: the legacy crash-course route bundled
after `auth.js` persists with `push`, so with one artifact already
stored the new artifact lands *last*, and the first entry of the next
`listBatch(0,4)` is still the old artifact, not the new one. -/
theorem legacy_crash_course_persist_appends :
    ((legacyPostCrashCourseRoute
      [{ id := "user_001", username := "a", email := "e", password := "p",
         createdAt := "", profilePicture := "",
         crashCourses := [.obj [("id", .str "cc_old")]], summaries := [] }]
      (.str "make a course") (.str "user_001") ⟨true, .null⟩ 5 "t").users.map
        User.crashCourses) =
      [[.obj [("id", .str "cc_old")],
        .obj [("id", .str "cc_5"), ("createdAt", .str "t"),
              ("prompt", .str "make a course"), ("content", .null)]]] ∧
    (listBatch
      [.obj [("id", .str "cc_old")],
       .obj [("id", .str "cc_5"), ("createdAt", .str "t"),
             ("prompt", .str "make a course"), ("content", .null)]] 0 4).1.head? =
      some (.obj [("id", .str "cc_old")]) :=
  ⟨rfl, rfl⟩

/-- Claim C9 (amended): in the structured-output crash-course route and
in the summary route a persisted artifact is prepended (`unshift`) —
it becomes the first element of the user's artifact list and the first
item of the next `listBatch(0,4)`; the legacy crash-course route
appends instead. -/
theorem persist_prepends_artifact :
    (∀ users prompt userId up now nowIso i u text v,
      truthy prompt = true → up.ok = true →
      envText up.data = some text → jsonParse text = some v → truthy v = true →
      truthy userId = true →
      users.findIdx? (fun w => strictEqStr userId w.id) = some i →
      users[i]? = some u →
      ((postCrashCourseRoute users prompt userId up now nowIso).users =
        updateUserAt users i fun w =>
          { w with crashCourses := crashCourseArtifact now nowIso v :: w.crashCourses }) ∧
      ((postCrashCourseRoute users prompt userId up now nowIso).users[i]?).map
          User.crashCourses =
        some (crashCourseArtifact now nowIso v :: u.crashCourses) ∧
      (listBatch (crashCourseArtifact now nowIso v :: u.crashCourses) 0 4).1.head? =
        some (crashCourseArtifact now nowIso v)) ∧
    (∀ users fileName prompt userId up now nowIso i u text v,
      truthy prompt = true → up.ok = true →
      envText up.data = some text → jsonParse text = some v → truthy v = true →
      truthy userId = true →
      users.findIdx? (fun w => strictEqStr userId w.id) = some i →
      users[i]? = some u →
      ((postSummaryRoute users (some fileName) prompt userId up now nowIso).users =
        updateUserAt users i fun w =>
          { w with summaries := summaryArtifact now nowIso fileName v :: w.summaries }) ∧
      ((postSummaryRoute users (some fileName) prompt userId up now nowIso).users[i]?).map
          User.summaries =
        some (summaryArtifact now nowIso fileName v :: u.summaries) ∧
      (listBatch (summaryArtifact now nowIso fileName v :: u.summaries) 0 4).1.head? =
        some (summaryArtifact now nowIso fileName v)) := by
  constructor
  · intro users prompt userId up now nowIso i u text v
    intro hprompt hok henv hparse htruthy huid hfind hget
    have hroute : (postCrashCourseRoute users prompt userId up now nowIso).users =
        updateUserAt users i fun w =>
          { w with crashCourses := crashCourseArtifact now nowIso v :: w.crashCourses } := by
      simp [postCrashCourseRoute, hprompt, hok, henv, hparse, htruthy, huid, hfind]
    refine ⟨hroute, ?_, rfl⟩
    rw [hroute]
    simp [updateUserAt, List.getElem?_modify, hget]
  · intro users fileName prompt userId up now nowIso i u text v
    intro hprompt hok henv hparse htruthy huid hfind hget
    have hroute : (postSummaryRoute users (some fileName) prompt userId up now nowIso).users =
        updateUserAt users i fun w =>
          { w with summaries := summaryArtifact now nowIso fileName v :: w.summaries } := by
      simp [postSummaryRoute, hprompt, hok, henv, hparse, htruthy, huid, hfind]
    refine ⟨hroute, ?_, rfl⟩
    rw [hroute]
    simp [updateUserAt, List.getElem?_modify, hget]

/-- Witness for the amended C9 theorem: a concrete request whose
envelope text parses, persisted for the one stored user. -/
theorem persist_prepends_artifact_witness :
    ((postCrashCourseRoute
      [{ id := "user_001", username := "a", email := "e", password := "p",
         createdAt := "", profilePicture := "",
         crashCourses := [], summaries := [] }]
      (.str "make a course") (.str "user_001")
      ⟨true, .obj [("candidates", .arr [.obj [("content",
        .obj [("parts", .arr [.obj [("text", .str "[1]")]])])]])]⟩
      5 "t").users =
      updateUserAt
        [{ id := "user_001", username := "a", email := "e", password := "p",
           createdAt := "", profilePicture := "",
           crashCourses := [], summaries := [] }] 0 fun w =>
          { w with crashCourses :=
              crashCourseArtifact 5 "t" (.arr [.num 1]) :: w.crashCourses }) ∧
    (listBatch (crashCourseArtifact 5 "t" (.arr [.num 1]) ::
        ([] : List JsValue)) 0 4).1.head? =
      some (crashCourseArtifact 5 "t" (.arr [.num 1])) := by
  have h := persist_prepends_artifact.1
    [{ id := "user_001", username := "a", email := "e", password := "p",
       createdAt := "", profilePicture := "",
       crashCourses := [], summaries := [] }]
    (.str "make a course") (.str "user_001")
    ⟨true, .obj [("candidates", .arr [.obj [("content",
      .obj [("parts", .arr [.obj [("text", .str "[1]")]])])]])]⟩
    5 "t" 0
    { id := "user_001", username := "a", email := "e", password := "p",
      createdAt := "", profilePicture := "",
      crashCourses := [], summaries := [] }
    "[1]" (.arr [.num 1]) rfl rfl rfl rfl rfl rfl rfl rfl
  exact ⟨h.1, h.2.2⟩

/-! ## Claim C8: the store is only written after schema-valid generation -/

/-- Claim C8, counterexample: the crash-course route persists any
payload whose envelope text merely parses as JSON — here `[1]`, which
`CrashCourse.validateSchema` rejects — so the store is written for a
schema-invalid generation. -/
theorem store_written_despite_invalid_schema :
    validateCrashCourse (.arr [.num 1]) = .ok false ∧
    (postCrashCourseRoute
      [{ id := "user_001", username := "a", email := "e", password := "p",
         createdAt := "", profilePicture := "",
         crashCourses := [], summaries := [] }]
      (.str "make a course") (.str "user_001")
      ⟨true, .obj [("candidates", .arr [.obj [("content",
        .obj [("parts", .arr [.obj [("text", .str "[1]")]])])]])]⟩
      5 "t").users =
      [{ id := "user_001", username := "a", email := "e", password := "p",
         createdAt := "", profilePicture := "",
         crashCourses := [crashCourseArtifact 5 "t" (.arr [.num 1])], summaries := [] }] :=
  ⟨rfl, rfl⟩

/-- Claim C8 (amended): within one request the store is written only
after the upstream call succeeded, the envelope was well-formed, its
text parsed as JSON to a truthy value, a truthy `userId` was supplied
and the user exists — but SchemaValidator is never consulted on this
path, so schema-invalid (yet parseable) payloads are persisted too. -/
theorem store_written_only_after_parsed_generation :
    (∀ users prompt userId up now nowIso,
      (postCrashCourseRoute users prompt userId up now nowIso).users ≠ users →
      truthy prompt = true ∧ up.ok = true ∧ truthy userId = true ∧
      ∃ text v i, envText up.data = some text ∧ jsonParse text = some v ∧
        truthy v = true ∧ users.findIdx? (fun w => strictEqStr userId w.id) = some i) ∧
    (∀ users file prompt userId up now nowIso,
      (postSummaryRoute users file prompt userId up now nowIso).users ≠ users →
      truthy prompt = true ∧ up.ok = true ∧ truthy userId = true ∧
      ∃ fileName text v i, file = some fileName ∧
        envText up.data = some text ∧ jsonParse text = some v ∧
        truthy v = true ∧ users.findIdx? (fun w => strictEqStr userId w.id) = some i) := by
  constructor
  · intro users prompt userId up now nowIso hne
    by_cases hprompt : truthy prompt = true
    case neg => simp [postCrashCourseRoute, hprompt] at hne
    by_cases hok : up.ok = true
    case neg => simp [postCrashCourseRoute, hprompt, hok] at hne
    cases henv : envText up.data with
    | none =>
      by_cases huid : truthy userId = true <;>
        simp [postCrashCourseRoute, hprompt, hok, henv, huid] at hne
    | some text =>
      cases hparse : jsonParse text with
      | none =>
        by_cases huid : truthy userId = true <;>
          simp [postCrashCourseRoute, hprompt, hok, henv, hparse, huid] at hne
      | some v =>
        by_cases htruthy : truthy v = true
        case neg =>
          by_cases huid : truthy userId = true <;>
            simp [postCrashCourseRoute, hprompt, hok, henv, hparse, htruthy, huid] at hne
        by_cases huid : truthy userId = true
        case neg => simp [postCrashCourseRoute, hprompt, hok, henv, hparse, huid] at hne
        cases hfind : users.findIdx? (fun w => strictEqStr userId w.id) with
        | none => simp [postCrashCourseRoute, hprompt, hok, henv, hparse, htruthy, huid, hfind] at hne
        | some i => exact ⟨hprompt, hok, huid, ⟨text, v, i, rfl, hparse, htruthy, rfl⟩⟩
  · intro users file prompt userId up now nowIso hne
    cases file with
    | none => simp [postSummaryRoute] at hne
    | some fileName =>
      by_cases hprompt : truthy prompt = true
      case neg => simp [postSummaryRoute, hprompt] at hne
      by_cases hok : up.ok = true
      case neg => simp [postSummaryRoute, hprompt, hok] at hne
      cases henv : envText up.data with
      | none => simp [postSummaryRoute, hprompt, hok, henv] at hne
      | some text =>
        cases hparse : jsonParse text with
        | none => simp [postSummaryRoute, hprompt, hok, henv, hparse] at hne
        | some v =>
          by_cases htruthy : truthy v = true
          case neg =>
            by_cases huid : truthy userId = true <;>
              simp [postSummaryRoute, hprompt, hok, henv, hparse, htruthy, huid] at hne
          by_cases huid : truthy userId = true
          case neg => simp [postSummaryRoute, hprompt, hok, henv, hparse, huid] at hne
          cases hfind : users.findIdx? (fun w => strictEqStr userId w.id) with
          | none => simp [postSummaryRoute, hprompt, hok, henv, hparse, htruthy, huid, hfind] at hne
          | some i =>
            exact ⟨hprompt, hok, huid, ⟨fileName, text, v, i, rfl, rfl, hparse, htruthy, rfl⟩⟩

/-- Witness for the amended C8 theorem at a writing request. -/
theorem store_written_only_after_parsed_generation_witness :
    truthy (JsValue.str "make a course") = true ∧
    (Upstream.mk true (.obj [("candidates", .arr [.obj [("content",
      .obj [("parts", .arr [.obj [("text", .str "[1]")]])])]])])).ok = true ∧
    truthy (JsValue.str "user_001") = true ∧
    ∃ text v i,
      envText (Upstream.mk true (.obj [("candidates", .arr [.obj [("content",
        .obj [("parts", .arr [.obj [("text", .str "[1]")]])])]])])).data = some text ∧
      jsonParse text = some v ∧ truthy v = true ∧
      List.findIdx? (fun w => strictEqStr (JsValue.str "user_001") w.id)
        ([{ id := "user_001", username := "a", email := "e", password := "p",
            createdAt := "", profilePicture := "",
            crashCourses := [], summaries := [] }] : List User) = some i :=
  store_written_only_after_parsed_generation.1
    ([{ id := "user_001", username := "a", email := "e", password := "p",
        createdAt := "", profilePicture := "",
        crashCourses := [], summaries := [] }] : List User)
    (.str "make a course") (.str "user_001")
    (Upstream.mk true (.obj [("candidates", .arr [.obj [("content",
      .obj [("parts", .arr [.obj [("text", .str "[1]")]])])]])]))
    5 "t"
    (by
      intro hcontra
      have h1 := congrArg (List.map fun u => u.crashCourses.length) hcontra
      have h2 : ([1] : List Nat) = [0] := h1
      exact absurd h2 (by decide))

/-! ## Validator lemmas (claims C2, C3) -/

theorem checkSubtopic_ok_true_iff (v : JsValue) :
    checkSubtopic v = .ok true ↔ goodSubtopic v = true := by
  cases v with
  | obj fs =>
    simp only [checkSubtopic, goodSubtopic, getField, typeOf]
    cases ht : fs.lookup "title" with
    | none => simp [typeOf]
    | some t =>
      cases t with
      | str ts =>
        cases hd : fs.lookup "details" with
        | none => simp [typeOf]
        | some d => cases d <;> simp [typeOf]
      | undefined => simp [typeOf]
      | null => simp [typeOf]
      | bool b => simp [typeOf]
      | num n => simp [typeOf]
      | arr l => simp [typeOf]
      | obj l => simp [typeOf]
  | undefined => simp [checkSubtopic, goodSubtopic, typeOf]
  | null => simp [checkSubtopic, goodSubtopic, typeOf, getField]
  | bool b => simp [checkSubtopic, goodSubtopic, typeOf]
  | num n => simp [checkSubtopic, goodSubtopic, typeOf]
  | str s => simp [checkSubtopic, goodSubtopic, typeOf, getField]
  | arr l => simp [checkSubtopic, goodSubtopic, typeOf, getField]

theorem checkSubtopics_ok_true_iff (l : List JsValue) :
    checkSubtopics l = .ok true ↔ l.all goodSubtopic = true := by
  induction l with
  | nil => simp [checkSubtopics]
  | cons v rest ih =>
    simp only [checkSubtopics, List.all_cons, Bool.and_eq_true]
    constructor
    · intro h
      cases hv : checkSubtopic v with
      | error e => rw [hv] at h; exact absurd h (by simp [Except.bind])
      | ok b =>
        rw [hv] at h
        cases b with
        | false => exact absurd h (by simp [Except.bind])
        | true =>
          refine ⟨(checkSubtopic_ok_true_iff v).mp hv, ih.mp ?_⟩
          simpa [Except.bind] using h
    · rintro ⟨hgood, hrest⟩
      have hv := (checkSubtopic_ok_true_iff v).mpr hgood
      simp [checkSubtopics, hv]
      exact ih.mpr hrest

theorem checkTopic_ok_true_iff (v : JsValue) :
    checkTopic v = .ok true ↔ goodTopic v = true := by
  cases v with
  | obj fs =>
    simp only [checkTopic, goodTopic, getField, typeOf]
    cases ht : fs.lookup "title" with
    | none => simp [typeOf]
    | some t =>
      cases t <;> simp only [typeOf] <;> try simp
      cases hd : fs.lookup "description" with
      | none => simp [typeOf]
      | some d =>
        cases d <;> simp only [typeOf] <;> try simp
        cases hs : fs.lookup "subtopics" with
        | none => simp [typeOf, isArray]
        | some subs =>
          cases subs <;> simp only [isArray] <;> try simp
          rename_i elems
          by_cases hlen : elems.length = 3
          · simp [hlen, checkSubtopics_ok_true_iff]
          · have : (elems.length == 3) = false := by
              simpa using hlen
            simp [hlen, this]
  | undefined => simp [checkTopic, goodTopic, typeOf]
  | null => simp [checkTopic, goodTopic, typeOf, getField]
  | bool b => simp [checkTopic, goodTopic, typeOf]
  | num n => simp [checkTopic, goodTopic, typeOf]
  | str s => simp [checkTopic, goodTopic, typeOf, getField]
  | arr l => simp [checkTopic, goodTopic, typeOf, getField]

theorem checkTopics_ok_true_iff (l : List JsValue) :
    checkTopics l = .ok true ↔ l.all goodTopic = true := by
  induction l with
  | nil => simp [checkTopics]
  | cons v rest ih =>
    simp only [checkTopics, List.all_cons, Bool.and_eq_true]
    constructor
    · intro h
      cases hv : checkTopic v with
      | error e => rw [hv] at h; exact absurd h (by simp [Except.bind])
      | ok b =>
        rw [hv] at h
        cases b with
        | false => exact absurd h (by simp [Except.bind])
        | true =>
          refine ⟨(checkTopic_ok_true_iff v).mp hv, ih.mp ?_⟩
          simpa [Except.bind] using h
    · rintro ⟨hgood, hrest⟩
      have hv := (checkTopic_ok_true_iff v).mpr hgood
      simp [checkTopics, hv]
      exact ih.mpr hrest

/-- Claim C2: `CrashCourse.validateSchema` accepts exactly the objects
described by the schema — string `topic`/`summary`/`overview`/
`conclusion` and a `main_topics` array whose every topic has a string
`title`, a string `description` and exactly 3 well-typed subtopics; in
particular 2 or 4 subtopics are rejected, 3 accepted, and one malformed
subtopic anywhere rejects the whole object. -/
theorem validateCrashCourse_matches_spec :
    (∀ v, validateCrashCourse v = .ok true ↔ goodCrashCourse v = true) ∧
    validateCrashCourse (.obj [("topic", .str "t"), ("summary", .str "s"),
      ("overview", .str "o"), ("conclusion", .str "c"),
      ("main_topics", .arr [.obj [("title", .str "x"), ("description", .str "d"),
        ("subtopics", .arr [.obj [("title", .str "a"), ("details", .str "b")],
          .obj [("title", .str "a"), ("details", .str "b")],
          .obj [("title", .str "a"), ("details", .str "b")]])]])]) = .ok true ∧
    validateCrashCourse (.obj [("topic", .str "t"), ("summary", .str "s"),
      ("overview", .str "o"), ("conclusion", .str "c"),
      ("main_topics", .arr [.obj [("title", .str "x"), ("description", .str "d"),
        ("subtopics", .arr [.obj [("title", .str "a"), ("details", .str "b")],
          .obj [("title", .str "a"), ("details", .str "b")]])]])]) = .ok false ∧
    validateCrashCourse (.obj [("topic", .str "t"), ("summary", .str "s"),
      ("overview", .str "o"), ("conclusion", .str "c"),
      ("main_topics", .arr [.obj [("title", .str "x"), ("description", .str "d"),
        ("subtopics", .arr [.obj [("title", .str "a"), ("details", .str "b")],
          .obj [("title", .str "a"), ("details", .str "b")],
          .obj [("title", .str "a"), ("details", .str "b")],
          .obj [("title", .str "a"), ("details", .str "b")]])]])]) = .ok false ∧
    validateCrashCourse (.obj [("topic", .str "t"), ("summary", .str "s"),
      ("overview", .str "o"), ("conclusion", .str "c"),
      ("main_topics", .arr [.obj [("title", .str "x"), ("description", .str "d"),
        ("subtopics", .arr [.obj [("title", .str "a"), ("details", .str "b")],
          .obj [("title", .str "a"), ("details", .num 7)],
          .obj [("title", .str "a"), ("details", .str "b")]])]])]) = .ok false := by
  refine ⟨?_, rfl, rfl, rfl, rfl⟩
  intro v
  cases v with
  | obj fs =>
    simp only [validateCrashCourse, goodCrashCourse, getField, typeOf]
    cases ht : fs.lookup "topic" with
    | none => simp [typeOf]
    | some t =>
      cases t <;> simp only [typeOf] <;> try simp
      cases hsm : fs.lookup "summary" with
      | none => simp [typeOf]
      | some sm =>
        cases sm <;> simp only [typeOf] <;> try simp
        cases hov : fs.lookup "overview" with
        | none => simp [typeOf]
        | some ov =>
          cases ov <;> simp only [typeOf] <;> try simp
          cases hmt : fs.lookup "main_topics" with
          | none => simp [typeOf, isArray]
          | some mt =>
            cases mt <;> simp only [isArray] <;> try simp
            rename_i topics
            cases hc : fs.lookup "conclusion" with
            | none => simp [typeOf]
            | some c =>
              cases c <;> simp only [typeOf] <;> try simp
              simp [checkTopics_ok_true_iff]
  | undefined => simp [validateCrashCourse, goodCrashCourse, typeOf]
  | null => simp [validateCrashCourse, goodCrashCourse, typeOf, getField]
  | bool b => simp [validateCrashCourse, goodCrashCourse, typeOf]
  | num n => simp [validateCrashCourse, goodCrashCourse, typeOf]
  | str s => simp [validateCrashCourse, goodCrashCourse, typeOf, getField]
  | arr l => simp [validateCrashCourse, goodCrashCourse, typeOf, getField]

/-! ## No-throw analysis of the validators (claim C3) -/

theorem nullFreeList_iff (l : List JsValue) :
    nullFreeList l = true ↔ ∀ v ∈ l, nullFree v = true := by
  induction l with
  | nil => simp [nullFreeList]
  | cons v rest ih => simp [nullFreeList, ih]

theorem nullFreeFields_iff (fs : List (String × JsValue)) :
    nullFreeFields fs = true ↔ ∀ p ∈ fs, nullFree p.2 = true := by
  induction fs with
  | nil => simp [nullFreeFields]
  | cons p rest ih => simp [nullFreeFields, ih]

theorem nullFree_ne_null {v : JsValue} (h : nullFree v = true) : v ≠ JsValue.null := by
  intro hv
  subst hv
  simp [nullFree] at h

theorem lookupVal_mem {fs : List (String × JsValue)} {k : String} {w : JsValue}
    (h : fs.lookup k = some w) : ∃ k', (k', w) ∈ fs := by
  induction fs with
  | nil => simp [List.lookup] at h
  | cons p rest ih =>
    rw [List.lookup] at h
    by_cases hk : (k == p.1) = true
    · rw [hk] at h
      cases h
      exact ⟨p.1, by simp⟩
    · rw [Bool.not_eq_true] at hk
      rw [hk] at h
      obtain ⟨k', hmem⟩ := ih h
      exact ⟨k', List.mem_cons_of_mem _ hmem⟩

theorem checkSubtopic_no_error {v : JsValue} (h : v ≠ JsValue.null) :
    ∃ b, checkSubtopic v = .ok b := by
  cases v with
  | null => exact absurd rfl h
  | obj fs =>
    simp only [checkSubtopic, getField, exceptOkBind, exceptPureEq]
    cases fs.lookup "title" with
    | none => exact ⟨_, rfl⟩
    | some t =>
      cases t <;>
        first
        | exact ⟨_, rfl⟩
        | (cases fs.lookup "details" with
            | none => exact ⟨_, rfl⟩
            | some d => cases d <;> exact ⟨_, rfl⟩)
  | undefined => exact ⟨_, rfl⟩
  | bool b => exact ⟨_, rfl⟩
  | num n => exact ⟨_, rfl⟩
  | str s => exact ⟨_, rfl⟩
  | arr l => exact ⟨_, rfl⟩

theorem checkSubtopics_no_error {l : List JsValue} (h : ∀ v ∈ l, v ≠ JsValue.null) :
    ∃ b, checkSubtopics l = .ok b := by
  induction l with
  | nil => exact ⟨true, rfl⟩
  | cons v rest ih =>
    obtain ⟨b, hb⟩ := checkSubtopic_no_error (h v (List.mem_cons_self v rest))
    obtain ⟨b', hb'⟩ := ih fun w hw => h w (List.mem_cons_of_mem _ hw)
    cases b with
    | true =>
      refine ⟨b', ?_⟩
      simp [checkSubtopics, hb, hb']
    | false =>
      refine ⟨false, ?_⟩
      simp [checkSubtopics, hb]

theorem checkTopic_no_error {v : JsValue} (h : nullFree v = true) :
    ∃ b, checkTopic v = .ok b := by
  cases v with
  | null => simp [nullFree] at h
  | obj fs =>
    have hfields : ∀ p ∈ fs, nullFree p.2 = true :=
      (nullFreeFields_iff fs).mp (by simpa [nullFree] using h)
    simp only [checkTopic, getField, exceptOkBind, exceptPureEq]
    cases fs.lookup "title" with
    | none => exact ⟨_, rfl⟩
    | some t =>
      cases t <;> try exact ⟨_, rfl⟩
      cases fs.lookup "description" with
      | none => exact ⟨_, rfl⟩
      | some d =>
        cases d <;> try exact ⟨_, rfl⟩
        cases hs : fs.lookup "subtopics" with
        | none => exact ⟨_, rfl⟩
        | some subs =>
          cases subs <;> try exact ⟨_, rfl⟩
          rename_i elems
          have helems : ∀ e ∈ elems, e ≠ JsValue.null := by
            obtain ⟨k', hmem⟩ := lookupVal_mem hs
            have harr : nullFree (JsValue.arr elems) = true := hfields _ hmem
            have := (nullFreeList_iff elems).mp (by simpa [nullFree] using harr)
            exact fun e he => nullFree_ne_null (this e he)
          by_cases hlen : elems.length = 3
          · obtain ⟨b, hb⟩ := checkSubtopics_no_error helems
            refine ⟨b, ?_⟩
            simp [isArray, typeOf, hlen, hb]
          · refine ⟨false, ?_⟩
            simp [isArray, typeOf, hlen]
  | undefined => exact ⟨_, rfl⟩
  | bool b => exact ⟨_, rfl⟩
  | num n => exact ⟨_, rfl⟩
  | str s => exact ⟨_, rfl⟩
  | arr l => exact ⟨_, rfl⟩

theorem checkTopics_no_error {l : List JsValue} (h : ∀ v ∈ l, nullFree v = true) :
    ∃ b, checkTopics l = .ok b := by
  induction l with
  | nil => exact ⟨true, rfl⟩
  | cons v rest ih =>
    obtain ⟨b, hb⟩ := checkTopic_no_error (h v (List.mem_cons_self v rest))
    obtain ⟨b', hb'⟩ := ih fun w hw => h w (List.mem_cons_of_mem _ hw)
    cases b with
    | true =>
      refine ⟨b', ?_⟩
      simp [checkTopics, hb, hb']
    | false =>
      refine ⟨false, ?_⟩
      simp [checkTopics, hb]

theorem validateCrashCourse_no_error {v : JsValue} (h : nullFree v = true) :
    ∃ b, validateCrashCourse v = .ok b := by
  cases v with
  | null => simp [nullFree] at h
  | obj fs =>
    have hfields : ∀ p ∈ fs, nullFree p.2 = true :=
      (nullFreeFields_iff fs).mp (by simpa [nullFree] using h)
    simp only [validateCrashCourse, getField, exceptOkBind, exceptPureEq]
    cases fs.lookup "topic" with
    | none => exact ⟨_, rfl⟩
    | some t =>
      cases t <;> try exact ⟨_, rfl⟩
      cases fs.lookup "summary" with
      | none => exact ⟨_, rfl⟩
      | some sm =>
        cases sm <;> try exact ⟨_, rfl⟩
        cases fs.lookup "overview" with
        | none => exact ⟨_, rfl⟩
        | some ov =>
          cases ov <;> try exact ⟨_, rfl⟩
          cases hmt : fs.lookup "main_topics" with
          | none => exact ⟨_, rfl⟩
          | some mt =>
            cases mt <;> try exact ⟨_, rfl⟩
            rename_i topics
            have htopics : ∀ t ∈ topics, nullFree t = true := by
              obtain ⟨k', hmem⟩ := lookupVal_mem hmt
              have harr : nullFree (JsValue.arr topics) = true := hfields _ hmem
              exact (nullFreeList_iff topics).mp (by simpa [nullFree] using harr)
            cases fs.lookup "conclusion" with
            | none => exact ⟨_, rfl⟩
            | some c =>
              cases c <;> try exact ⟨_, rfl⟩
              obtain ⟨b, hb⟩ := checkTopics_no_error htopics
              refine ⟨b, ?_⟩
              simp [isArray, typeOf, hb]
  | undefined => exact ⟨_, rfl⟩
  | bool b => exact ⟨_, rfl⟩
  | num n => exact ⟨_, rfl⟩
  | str s => exact ⟨_, rfl⟩
  | arr l => exact ⟨_, rfl⟩

theorem checkSection_no_error {v : JsValue} (h : v ≠ JsValue.null) :
    ∃ b, checkSection v = .ok b := by
  cases v with
  | null => exact absurd rfl h
  | obj fs =>
    simp only [checkSection, getField, exceptOkBind, exceptPureEq]
    cases fs.lookup "page_range" with
    | none => exact ⟨_, rfl⟩
    | some pr =>
      cases pr <;> try exact ⟨_, rfl⟩
      cases fs.lookup "summary_points" with
      | none => exact ⟨_, rfl⟩
      | some sp =>
        cases sp <;> try exact ⟨_, rfl⟩
        rename_i points
        cases points with
        | nil => exact ⟨_, rfl⟩
        | cons p rest => exact ⟨_, rfl⟩
  | undefined => exact ⟨_, rfl⟩
  | bool b => exact ⟨_, rfl⟩
  | num n => exact ⟨_, rfl⟩
  | str s => exact ⟨_, rfl⟩
  | arr l => exact ⟨_, rfl⟩

theorem checkSections_no_error {l : List JsValue} (h : ∀ v ∈ l, v ≠ JsValue.null) :
    ∃ b, checkSections l = .ok b := by
  induction l with
  | nil => exact ⟨true, rfl⟩
  | cons v rest ih =>
    obtain ⟨b, hb⟩ := checkSection_no_error (h v (List.mem_cons_self v rest))
    obtain ⟨b', hb'⟩ := ih fun w hw => h w (List.mem_cons_of_mem _ hw)
    cases b with
    | true =>
      refine ⟨b', ?_⟩
      simp [checkSections, hb, hb']
    | false =>
      refine ⟨false, ?_⟩
      simp [checkSections, hb]

theorem validateSummary_no_error {v : JsValue} (h : nullFree v = true) :
    ∃ b, validateSummary v = .ok b := by
  cases v with
  | null => simp [nullFree] at h
  | obj fs =>
    have hfields : ∀ p ∈ fs, nullFree p.2 = true :=
      (nullFreeFields_iff fs).mp (by simpa [nullFree] using h)
    simp only [validateSummary, getField, exceptOkBind, exceptPureEq]
    cases fs.lookup "document_title" with
    | none => exact ⟨_, rfl⟩
    | some dt =>
      cases dt <;> try exact ⟨_, rfl⟩
      cases fs.lookup "executive_summary" with
      | none => exact ⟨_, rfl⟩
      | some es =>
        cases es <;> try exact ⟨_, rfl⟩
        cases hkf : fs.lookup "key_findings" with
        | none => exact ⟨_, rfl⟩
        | some kf =>
          cases kf <;> try exact ⟨_, rfl⟩
          rename_i findings
          cases hss : fs.lookup "section_summaries" with
          | none =>
            cases findings with
            | nil => exact ⟨_, rfl⟩
            | cons f fr => exact ⟨_, rfl⟩
          | some ss =>
            cases ss <;> first
              | (cases findings with
                  | nil => exact ⟨_, rfl⟩
                  | cons f fr => exact ⟨_, rfl⟩)
              | skip
            rename_i sections
            have hsections : ∀ s ∈ sections, s ≠ JsValue.null := by
              obtain ⟨k', hmem⟩ := lookupVal_mem hss
              have harr : nullFree (JsValue.arr sections) = true := hfields _ hmem
              have := (nullFreeList_iff sections).mp (by simpa [nullFree] using harr)
              exact fun s hs => nullFree_ne_null (this s hs)
            cases findings with
            | nil => exact ⟨_, rfl⟩
            | cons f fr =>
              cases sections with
              | nil => exact ⟨_, rfl⟩
              | cons s sr =>
                by_cases hf : checkFindings (f :: fr) = true
                · obtain ⟨b, hb⟩ := checkSections_no_error hsections
                  refine ⟨b, ?_⟩
                  simp [isArray, typeOf, hf, hb]
                · refine ⟨false, ?_⟩
                  simp only [Bool.not_eq_true] at hf
                  simp [isArray, typeOf, hf]
  | undefined => exact ⟨_, rfl⟩
  | bool b => exact ⟨_, rfl⟩
  | num n => exact ⟨_, rfl⟩
  | str s => exact ⟨_, rfl⟩
  | arr l => exact ⟨_, rfl⟩

/-! ## Claim C3: validators are total and exception-free -/

/-- Claim C3, counterexample: on the input `null` — a value `JSON.parse`
can return — both validators throw a `TypeError` (`typeof null` is
`"object"`, so the guard falls through to a property access on `null`)
instead of returning `false`. -/
theorem validators_throw_on_null :
    validateCrashCourse JsValue.null = .error () ∧
    validateSummary JsValue.null = .error () :=
  ⟨rfl, rfl⟩

/-- Claim C3 (amended): for every input with no `null` anywhere inside
it, both validators terminate with a boolean verdict and never throw
(and, being pure functions of their argument, mutate nothing); an input
containing `null` at a probed position — `null` itself at the top level,
or as an array element that the loops inspect — makes the JS code throw
a `TypeError` rather than return `false`. -/
theorem validators_total_on_null_free_input (v : JsValue)
    (h : nullFree v = true) :
    (∃ b, validateCrashCourse v = .ok b) ∧ (∃ b, validateSummary v = .ok b) :=
  ⟨validateCrashCourse_no_error h, validateSummary_no_error h⟩

/-- Witness for the amended C3 theorem: a null-free non-conforming
object gets the verdict `false` from both validators, without a throw. -/
theorem validators_total_on_null_free_input_witness :
    nullFree (JsValue.obj [("topic", .num 3)]) = true ∧
    (∃ b, validateCrashCourse (JsValue.obj [("topic", .num 3)]) = .ok b) ∧
    (∃ b, validateSummary (JsValue.obj [("topic", .num 3)]) = .ok b) :=
  ⟨rfl,
   (validators_total_on_null_free_input (JsValue.obj [("topic", .num 3)]) rfl).1,
   (validators_total_on_null_free_input (JsValue.obj [("topic", .num 3)]) rfl).2⟩

/-! ## Decimal string lemmas (claims C4, C6) -/

theorem digitChar_toNat {d : Nat} (h : d < 10) : (digitChar d).toNat = 48 + d := by
  interval_cases d <;> decide

theorem digitChar_isDigit {d : Nat} (h : d < 10) : (digitChar d).isDigit = true := by
  interval_cases d <;> decide

theorem digitsVal_append_singleton (l : List Char) (c : Char) :
    digitsVal (l ++ [c]) = 10 * digitsVal l + (c.toNat - 48) := by
  simp [digitsVal, List.foldl_append]

theorem natToCharsGo_spec :
    ∀ fuel n, n < fuel →
      natToCharsGo fuel n ≠ [] ∧ (∀ c ∈ natToCharsGo fuel n, c.isDigit = true) ∧
        digitsVal (natToCharsGo fuel n) = n := by
  intro fuel
  induction fuel with
  | zero => intro n h; omega
  | succ fuel ih =>
    intro n h
    by_cases hn : n < 10
    · refine ⟨by simp [natToCharsGo, hn], ?_, ?_⟩
      · intro c hc
        simp only [natToCharsGo, if_pos hn, List.mem_singleton] at hc
        subst hc
        exact digitChar_isDigit hn
      · simp [natToCharsGo, hn, digitsVal, digitChar_toNat hn]
    · have hdiv : n / 10 < fuel := by omega
      obtain ⟨hne, hdig, hval⟩ := ih (n / 10) hdiv
      refine ⟨by simp [natToCharsGo, hn], ?_, ?_⟩
      · intro c hc
        simp only [natToCharsGo, if_neg hn, List.mem_append, List.mem_singleton] at hc
        rcases hc with hc | hc
        · exact hdig c hc
        · subst hc
          exact digitChar_isDigit (by omega)
      · simp only [natToCharsGo, if_neg hn]
        rw [digitsVal_append_singleton, hval, digitChar_toNat (by omega : n % 10 < 10)]
        omega

theorem natToChars_ne_nil (n : Nat) : natToChars n ≠ [] :=
  (natToCharsGo_spec (n + 1) n (by omega)).1

theorem natToChars_all_digits (n : Nat) : ∀ c ∈ natToChars n, c.isDigit = true :=
  (natToCharsGo_spec (n + 1) n (by omega)).2.1

theorem digitsVal_natToChars (n : Nat) : digitsVal (natToChars n) = n :=
  (natToCharsGo_spec (n + 1) n (by omega)).2.2

theorem leadingDigits_of_all_digits {l : List Char} (h : ∀ c ∈ l, c.isDigit = true) :
    leadingDigits l = l := by
  induction l with
  | nil => rfl
  | cons c rest ih =>
    have hc := h c (List.mem_cons_self c rest)
    simp only [leadingDigits, hc, if_pos]
    rw [ih fun d hd => h d (List.mem_cons_of_mem _ hd)]

theorem splitChs_of_no_sep {sep : Char} {l : List Char} (h : ∀ c ∈ l, c ≠ sep) :
    splitChs sep l = [l] := by
  induction l with
  | nil => rfl
  | cons c rest ih =>
    have hc := h c (List.mem_cons_self c rest)
    simp only [splitChs, if_neg hc]
    rw [ih fun d hd => h d (List.mem_cons_of_mem _ hd)]

theorem jsParseInt_digits {ds : List Char} (hne : ds ≠ [])
    (hdig : ∀ c ∈ ds, c.isDigit = true) :
    jsParseInt ⟨ds⟩ = some ((digitsVal ds : Int)) := by
  match ds, hne with
  | c :: rest, _ =>
    have hc := hdig c (List.mem_cons_self c rest)
    have hminus : c ≠ '-' := by
      intro hcontra
      subst hcontra
      simp at hc
    have hplus : c ≠ '+' := by
      intro hcontra
      subst hcontra
      simp at hc
    show jsParseInt ⟨c :: rest⟩ = some ((digitsVal (c :: rest) : Int))
    have hdata : (⟨c :: rest⟩ : String).data = c :: rest := rfl
    simp only [jsParseInt, hdata, if_neg hminus, if_neg hplus]
    rw [leadingDigits_of_all_digits hdig]

/-! ## Claim C4: sequential user id allocation -/

theorem generateUserId_alloc :
    generateUserId [] = "user_001" ∧
    (∀ users lastUser ds, users.getLast? = some lastUser →
      lastUser.id.data = "user_".data ++ ds → ds ≠ [] →
      (∀ c ∈ ds, c.isDigit = true) →
      generateUserId users = "user_" ++ jsPadStart 3 '0' ⟨natToChars (digitsVal ds + 1)⟩) := by
  refine ⟨rfl, ?_⟩
  intro users lastUser ds hlast hid hne hdig
  have hsep : ∀ c ∈ ds, c ≠ '_' := by
    intro c hc hcontra
    have := hdig c hc
    subst hcontra
    simp at this
  have hsplitData : splitChs '_' lastUser.id.data = ["user".data, ds] := by
    rw [hid]
    show splitChs '_' ('u' :: 's' :: 'e' :: 'r' :: '_' :: ds) = ["user".data, ds]
    have : splitChs '_' ('_' :: ds) = [] :: splitChs '_' ds := by
      simp [splitChs]
    simp [splitChs, splitChs_of_no_sep hsep]
  have hsplit : jsSplit '_' lastUser.id = ["user", ⟨ds⟩] := by
    simp [jsSplit, hsplitData]
  have hparse : jsParseInt ⟨ds⟩ = some (digitsVal ds) := jsParseInt_digits hne hdig
  simp only [generateUserId, hlast, hsplit]
  have hget : (["user", (⟨ds⟩ : String)].get? 1) = some ⟨ds⟩ := rfl
  rw [hget]
  simp only [hparse, Option.map_some']
  have htoNat : ((digitsVal ds : Int) + 1).toNat = digitsVal ds + 1 := by omega
  have hnonneg : ¬ ((digitsVal ds : Int) + 1 < 0) := by omega
  simp [jsNumToString, intToChars, hnonneg, htoNat]

/-- Claim C4: `generateUserId` returns `"user_001"` on the empty store,
and on a non-empty store whose last stored id is `"user_"` followed by
digits it returns `"user_"` followed by the successor of that numeric
suffix, zero-padded to width 3. -/
theorem generateUserId_spec :
    generateUserId [] = "user_001" ∧
    (∀ users lastUser ds, users.getLast? = some lastUser →
      lastUser.id.data = "user_".data ++ ds → ds ≠ [] →
      (∀ c ∈ ds, c.isDigit = true) →
      generateUserId users = "user_" ++ jsPadStart 3 '0' ⟨natToChars (digitsVal ds + 1)⟩) :=
  generateUserId_alloc

/-- Witness for C4: a store whose last user is `"user_057"` allocates
`"user_058"`. -/
theorem generateUserId_spec_witness :
    generateUserId
      [{ id := "user_057", username := "a", email := "e", password := "p",
         createdAt := "", profilePicture := "",
         crashCourses := [], summaries := [] }] = "user_058" :=
  (generateUserId_spec.2
    [{ id := "user_057", username := "a", email := "e", password := "p",
       createdAt := "", profilePicture := "",
       crashCourses := [], summaries := [] }]
    { id := "user_057", username := "a", email := "e", password := "p",
      createdAt := "", profilePicture := "",
      crashCourses := [], summaries := [] }
    ['0', '5', '7'] rfl rfl (by decide) (by decide)).trans rfl

/-! ## ChunkPlanner lemmas (claim C1) -/

theorem chunkRangesGo_of_gt {g n : Nat} (fuel s : Nat) (h : n < s) :
    chunkRangesGo g n fuel s = [] := by
  cases fuel with
  | zero => rfl
  | succ fuel => simp [chunkRangesGo, Nat.not_le.mpr h]

theorem chunkRangesGo_spec {g n : Nat} (hg : 1 ≤ g) :
    ∀ fuel s, 1 ≤ s → s ≤ n → n + 1 - s ≤ fuel →
      (chunkRangesGo g n fuel s).head? = some (s, min (s + g - 1) n) ∧
      ((chunkRangesGo g n fuel s).getLast?.map Prod.snd = some n) ∧
      List.Chain' (fun r₁ r₂ => r₂.1 = r₁.2 + 1) (chunkRangesGo g n fuel s) ∧
      (∀ r ∈ chunkRangesGo g n fuel s,
        s ≤ r.1 ∧ r.1 ≤ r.2 ∧ r.2 = min (r.1 + g - 1) n) ∧
      (∀ p, ((chunkRangesGo g n fuel s).countP fun r => decide (r.1 ≤ p ∧ p ≤ r.2)) =
        if s ≤ p ∧ p ≤ n then 1 else 0) := by
  intro fuel
  induction fuel with
  | zero => intro s h1 h2 h3; omega
  | succ fuel ih =>
    intro s h1 h2 h3
    have hsn : s ≤ n := h2
    have hse : s ≤ min (s + g - 1) n := by omega
    have hen : min (s + g - 1) n ≤ n := by omega
    simp only [chunkRangesGo, if_pos hsn]
    by_cases hlast : min (s + g - 1) n = n
    · have hrest : chunkRangesGo g n fuel (min (s + g - 1) n + 1) = [] :=
        chunkRangesGo_of_gt fuel _ (by omega)
      rw [hrest]
      refine ⟨rfl, by simp [hlast], by simp, ?_, ?_⟩
      · intro r hr
        simp only [List.mem_singleton] at hr
        subst hr
        exact ⟨le_refl s, by omega, rfl⟩
      · intro p
        simp only [List.countP_cons, List.countP_nil]
        by_cases hp : s ≤ p ∧ p ≤ n
        · simp only [if_pos hp]
          have : (decide (s ≤ p ∧ p ≤ min (s + g - 1) n)) = true := by
            rw [hlast]
            exact decide_eq_true hp
          simp [this]
          omega
        · simp only [if_neg hp]
          have : (decide (s ≤ p ∧ p ≤ min (s + g - 1) n)) = false := by
            rw [hlast]
            exact decide_eq_false hp
          simp [this]
          omega
    · have hnext1 : 1 ≤ min (s + g - 1) n + 1 := by omega
      have hnext2 : min (s + g - 1) n + 1 ≤ n := by omega
      have hnext3 : n + 1 - (min (s + g - 1) n + 1) ≤ fuel := by omega
      obtain ⟨ihead, ilast, ichain, imem, icount⟩ := ih (min (s + g - 1) n + 1) hnext1 hnext2 hnext3
      cases hrest : chunkRangesGo g n fuel (min (s + g - 1) n + 1) with
      | nil => rw [hrest] at ihead; exact absurd ihead (by simp)
      | cons b t =>
        rw [hrest] at ihead ilast ichain imem icount
        refine ⟨rfl, ?_, ?_, ?_, ?_⟩
        · rw [List.getLast?_cons_cons]
          exact ilast
        · refine List.chain'_cons'.mpr ⟨?_, ichain⟩
          intro y hy
          simp only [List.head?_cons, Option.mem_def, Option.some.injEq] at hy
          subst hy
          have hb : b.1 = min (s + g - 1) n + 1 := by
            simp only [List.head?_cons, Option.some.injEq] at ihead
            rw [ihead]
          exact hb
        · intro r hr
          rcases List.mem_cons.mp hr with hr | hr
          · subst hr
            exact ⟨le_refl s, by omega, rfl⟩
          · obtain ⟨ha, hb, hc⟩ := imem r hr
            exact ⟨by omega, hb, hc⟩
        · intro p
          rw [List.countP_cons]
          rw [icount p]
          by_cases hp1 : s ≤ p ∧ p ≤ min (s + g - 1) n
          · have hd : (decide (s ≤ p ∧ p ≤ min (s + g - 1) n)) = true := decide_eq_true hp1
            rw [hd]
            have hif1 : ¬ (min (s + g - 1) n + 1 ≤ p ∧ p ≤ n) := by omega
            have hif2 : s ≤ p ∧ p ≤ n := by omega
            simp [hif1, hif2]
            omega
          · have hd : (decide (s ≤ p ∧ p ≤ min (s + g - 1) n)) = false := decide_eq_false hp1
            rw [hd]
            by_cases hp2 : min (s + g - 1) n + 1 ≤ p ∧ p ≤ n
            · have hif2 : s ≤ p ∧ p ≤ n := by omega
              simp [hp2, hif2]
            · have hif2 : ¬ (s ≤ p ∧ p ≤ n) := by omega
              simp [hp2, hif2]

/-! ## Claim C1: the adaptive chunk-plan policy -/

/-- Claim C1: for every positive `totalPages` the plan embedded in the
summary prompt is per-page with ranges `[1,1],…,[n,n]` when `n ≤ 20`,
and grouped otherwise with the step-table group size; the grouped
ranges start at 1, are contiguous in ascending order, end exactly at
`n` (final range truncated), and every page `1..n` lies in exactly one
range. -/
theorem summary_chunk_plan_policy (n : Nat) (h : 1 ≤ n) :
    (n ≤ 20 → createPlan n =
      (ChunkMode.perPage, (List.range n).map fun i => (i + 1, i + 1))) ∧
    (20 < n →
      (createPlan n).1 = ChunkMode.grouped ∧
      ((n ≤ 40 → promptGroupSize n = 5) ∧
       (40 < n → n ≤ 75 → promptGroupSize n = 10) ∧
       (75 < n → n ≤ 150 → promptGroupSize n = 20) ∧
       (150 < n → n ≤ 300 → promptGroupSize n = 25) ∧
       (300 < n → promptGroupSize n = 50)) ∧
      ((createPlan n).2.head?.map Prod.fst = some 1) ∧
      ((createPlan n).2.getLast?.map Prod.snd = some n) ∧
      List.Chain' (fun r₁ r₂ => r₂.1 = r₁.2 + 1) (createPlan n).2 ∧
      (∀ r ∈ (createPlan n).2,
        r.1 ≤ r.2 ∧ r.2 = min (r.1 + promptGroupSize n - 1) n) ∧
      (∀ p, 1 ≤ p → p ≤ n →
        ((createPlan n).2.countP fun r => decide (r.1 ≤ p ∧ p ≤ r.2)) = 1)) := by
  constructor
  · intro hle
    simp [createPlan, hle]
  · intro hgt
    have hle : ¬ n ≤ 20 := by omega
    have hg : 1 ≤ promptGroupSize n := by
      simp only [promptGroupSize]
      split <;> try omega
      split <;> try omega
      split <;> try omega
      split <;> omega
    obtain ⟨ihead, ilast, ichain, imem, icount⟩ :=
      chunkRangesGo_spec hg n 1 (le_refl 1) h (by omega)
    have hr2 : (createPlan n).2 = chunkRangesGo (promptGroupSize n) n n 1 := by
      simp [createPlan, hle, chunkRanges]
    refine ⟨by simp [createPlan, hle], ?_, ?_, ?_, ?_, ?_, ?_⟩
    · refine ⟨fun h40 => ?_, fun h40 h75 => ?_, fun h75 h150 => ?_,
        fun h150 h300 => ?_, fun h300 => ?_⟩ <;>
        (simp only [promptGroupSize]; split_ifs <;> omega)
    · rw [hr2, ihead]
      rfl
    · rw [hr2]
      exact ilast
    · rw [hr2]
      exact ichain
    · rw [hr2]
      intro r hr
      obtain ⟨h1, h2, h3⟩ := imem r hr
      exact ⟨h2, h3⟩
    · intro p hp1 hp2
      rw [hr2, icount p, if_pos ⟨hp1, hp2⟩]

/-- Witness for C1 at `totalPages = 3` (per-page) and `totalPages = 41`
(grouped, size 10, final range truncated to 41). -/
theorem summary_chunk_plan_policy_witness :
    createPlan 3 = (ChunkMode.perPage, [(1, 1), (2, 2), (3, 3)]) ∧
    (createPlan 41).1 = ChunkMode.grouped ∧
    promptGroupSize 41 = 10 ∧
    ((createPlan 41).2.getLast?.map Prod.snd = some 41) ∧
    ((createPlan 41).2.countP fun r => decide (r.1 ≤ 41 ∧ 41 ≤ r.2)) = 1 :=
  ⟨((summary_chunk_plan_policy 3 (by decide)).1 (by decide)).trans rfl,
   ((summary_chunk_plan_policy 41 (by decide)).2 (by decide)).1,
   ((summary_chunk_plan_policy 41 (by decide)).2 (by decide)).2.1.2.1 (by decide) (by decide),
   ((summary_chunk_plan_policy 41 (by decide)).2 (by decide)).2.2.2.1,
   ((summary_chunk_plan_policy 41 (by decide)).2 (by decide)).2.2.2.2.2.2 41
     (by decide) (by decide)⟩

/-! ## Binary search lemmas (claim C5) -/

theorem jsStrLt_trans {a b c : String} (h1 : jsStrLt a b) (h2 : jsStrLt b c) :
    jsStrLt a c := lt_trans h1 h2

theorem jsStrLt_ne {a b : String} (h : jsStrLt a b) : a ≠ b := by
  intro he
  subst he
  exact lt_irrefl _ h

theorem string_eq_of_data_eq {a b : String} (h : a.data = b.data) : a = b := by
  cases a
  cases b
  exact congrArg String.mk h

theorem jsStrLt_trichotomy (a b : String) : jsStrLt a b ∨ a = b ∨ jsStrLt b a := by
  rcases lt_trichotomy a.data b.data with h | h | h
  · exact Or.inl h
  · exact Or.inr (Or.inl (string_eq_of_data_eq h))
  · exact Or.inr (Or.inr h)

theorem sortedById_get_lt {users : List User} (hsorted : sortedById users)
    {i j : Nat} (hi : i < users.length) (hj : j < users.length) (hij : i < j) :
    jsStrLt (users.get ⟨i, hi⟩).id (users.get ⟨j, hj⟩).id := by
  have := List.pairwise_iff_getElem.mp hsorted i j hi hj hij
  simpa using this

theorem binarySearchGo_spec (users : List User) (target : String)
    (hsorted : sortedById users) :
    ∀ fuel (left right : Int), 0 ≤ left → right < users.length →
      (right + 1 - left).toNat < fuel →
      (∀ (i : Nat) (hi : i < users.length), (i : Int) < left →
        jsStrLt (users.get ⟨i, hi⟩).id target) →
      (∀ (i : Nat) (hi : i < users.length), right < (i : Int) →
        jsStrLt target (users.get ⟨i, hi⟩).id) →
      (∀ u, binarySearchGo users target fuel left right = some u →
        u ∈ users ∧ u.id = target) ∧
      (binarySearchGo users target fuel left right = none →
        ∀ u ∈ users, u.id ≠ target) := by
  intro fuel
  induction fuel with
  | zero => intro left right h0 hlen hfuel hlo hhi; omega
  | succ fuel ih =>
    intro left right h0 hlen hfuel hlo hhi
    by_cases hlr : left ≤ right
    case neg =>
      rw [binarySearchGo, if_neg hlr]
      refine ⟨fun u hu => absurd hu (by simp), fun _ u hu => ?_⟩
      obtain ⟨⟨i, hi⟩, rfl⟩ := List.mem_iff_get.mp hu
      by_cases hcase : (i : Int) < left
      · exact jsStrLt_ne (hlo i hi hcase)
      · have : right < (i : Int) := by omega
        exact fun he => jsStrLt_ne (hhi i hi this) he.symm
    case pos =>
      have hmidl : left ≤ (left + right) / 2 := by omega
      have hmidr : (left + right) / 2 ≤ right := by omega
      have hmidNat : ((left + right) / 2).toNat < users.length := by omega
      have hmidBack : (((left + right) / 2).toNat : Int) = (left + right) / 2 := by omega
      have hget : users.get? ((left + right) / 2).toNat =
          some (users.get ⟨((left + right) / 2).toNat, hmidNat⟩) := by
        rw [List.get?_eq_getElem?, List.getElem?_eq_getElem hmidNat]
        rfl
      set u := users.get ⟨((left + right) / 2).toNat, hmidNat⟩ with hu
      rw [binarySearchGo, if_pos hlr]
      simp only [hget]
      by_cases heq : u.id = target
      case pos =>
        rw [if_pos heq]
        refine ⟨fun w hw => ?_, fun hcontra => absurd hcontra (by simp)⟩
        have : u = w := by injection hw
        subst this
        exact ⟨List.get_mem users _ _, heq⟩
      case neg =>
        rw [if_neg heq]
        by_cases hlt : jsStrLt u.id target
        case pos =>
          rw [if_pos hlt]
          refine ih ((left + right) / 2 + 1) right (by omega) hlen (by omega) ?_ hhi
          intro i hi hcase
          rcases lt_trichotomy i ((left + right) / 2).toNat with hc | hc | hc
          · exact jsStrLt_trans (sortedById_get_lt hsorted hi hmidNat hc) hlt
          · subst hc
            exact hlt
          · omega
        case neg =>
          rw [if_neg hlt]
          have hgt : jsStrLt target u.id := by
            rcases jsStrLt_trichotomy u.id target with h | h | h
            · exact absurd h hlt
            · exact absurd h heq
            · exact h
          refine ih left ((left + right) / 2 - 1) h0 (by omega) (by omega) hlo ?_
          intro i hi hcase
          rcases lt_trichotomy i ((left + right) / 2).toNat with hc | hc | hc
          · omega
          · subst hc
            exact hgt
          · exact jsStrLt_trans hgt (sortedById_get_lt hsorted hmidNat hi hc)

/-! ## Claim C5: findUserByID is a correct lookup on a sorted store -/

/-- Claim C5: on a store sorted by id string, `findUserByID` returns a
stored user bearing the target id whenever one exists, and `null`
(`none`) when no stored user bears it — for collections of every size,
including 0, 1 and 50. -/
theorem findUserByID_correct (users : List User) (userId : String)
    (hsorted : sortedById users) :
    (∀ u, findUserByID users userId = some u → u ∈ users ∧ u.id = userId) ∧
    ((∃ u ∈ users, u.id = userId) →
      ∃ u, findUserByID users userId = some u ∧ u.id = userId) ∧
    ((∀ u ∈ users, u.id ≠ userId) → findUserByID users userId = none) := by
  have h := binarySearchGo_spec users userId hsorted (users.length + 1) 0
    ((users.length : Int) - 1) (by omega) (by omega) (by omega)
    (fun i hi hcase => absurd hcase (by omega))
    (fun i hi hcase => absurd hcase (by omega))
  refine ⟨h.1, ?_, ?_⟩
  · rintro ⟨w, hwmem, hwid⟩
    cases hres : findUserByID users userId with
    | none =>
      exact absurd hwid (h.2 hres w hwmem)
    | some u =>
      exact ⟨u, rfl, (h.1 u hres).2⟩
  · intro hnone
    cases hres : findUserByID users userId with
    | none => rfl
    | some u =>
      obtain ⟨hmem, hid⟩ := h.1 u hres
      exact absurd hid (hnone u hmem)

/-- Witness for C5 on a concrete sorted three-user store: a present id
is found, an absent id gives `none`. -/
theorem findUserByID_correct_witness :
    (∃ u, findUserByID
      [{ id := "user_001", username := "a", email := "ea", password := "p",
         createdAt := "", profilePicture := "", crashCourses := [], summaries := [] },
       { id := "user_002", username := "b", email := "eb", password := "p",
         createdAt := "", profilePicture := "", crashCourses := [], summaries := [] },
       { id := "user_003", username := "c", email := "ec", password := "p",
         createdAt := "", profilePicture := "", crashCourses := [], summaries := [] }]
      "user_002" = some u ∧ u.id = "user_002") ∧
    findUserByID
      [{ id := "user_001", username := "a", email := "ea", password := "p",
         createdAt := "", profilePicture := "", crashCourses := [], summaries := [] },
       { id := "user_002", username := "b", email := "eb", password := "p",
         createdAt := "", profilePicture := "", crashCourses := [], summaries := [] },
       { id := "user_003", username := "c", email := "ec", password := "p",
         createdAt := "", profilePicture := "", crashCourses := [], summaries := [] }]
      "user_009" = none :=
  ⟨(findUserByID_correct _ "user_002" (by decide)).2.1
      ⟨{ id := "user_002", username := "b", email := "eb", password := "p",
         createdAt := "", profilePicture := "", crashCourses := [], summaries := [] },
        by simp, rfl⟩,
   (findUserByID_correct _ "user_009" (by decide)).2.2
      (by
        intro u hu
        fin_cases hu <;> decide)⟩

/-! ## Id-sequence lemmas (claim C6) -/

theorem digitsVal_replicate_zero (m : Nat) (l : List Char) :
    digitsVal (List.replicate m '0' ++ l) = digitsVal l := by
  induction m with
  | zero => rfl
  | succ m ih =>
    have : List.replicate (m + 1) '0' ++ l = '0' :: (List.replicate m '0' ++ l) := by
      simp [List.replicate_succ]
    rw [this]
    show List.foldl (fun acc c => 10 * acc + (c.toNat - 48)) (10 * 0 + ('0'.toNat - 48))
      (List.replicate m '0' ++ l) = digitsVal l
    have hzero : 10 * 0 + ('0'.toNat - 48) = 0 := by decide
    rw [hzero]
    exact ih

theorem padded_data (k : Nat) :
    (jsPadStart 3 '0' ⟨natToChars k⟩).data =
      List.replicate (3 - (natToChars k).length) '0' ++ natToChars k := rfl

theorem padded_ne_nil (k : Nat) : (jsPadStart 3 '0' ⟨natToChars k⟩).data ≠ [] := by
  rw [padded_data]
  intro h
  rcases List.append_eq_nil.mp h with ⟨_, h2⟩
  exact natToChars_ne_nil k h2

theorem padded_all_digits (k : Nat) :
    ∀ c ∈ (jsPadStart 3 '0' ⟨natToChars k⟩).data, c.isDigit = true := by
  rw [padded_data]
  intro c hc
  rcases List.mem_append.mp hc with hc | hc
  · have := List.eq_of_mem_replicate hc
    subst this
    decide
  · exact natToChars_all_digits k c hc

theorem digitsVal_padded (k : Nat) :
    digitsVal ((jsPadStart 3 '0' ⟨natToChars k⟩).data) = k := by
  rw [padded_data, digitsVal_replicate_zero, digitsVal_natToChars]

theorem mkUserId_data (k : Nat) :
    (mkUserId k).data = "user_".data ++ (jsPadStart 3 '0' ⟨natToChars k⟩).data := by
  rw [mkUserId, String.data_append]

theorem mkUserId_inj : Function.Injective mkUserId := by
  intro a b h
  have hd : (mkUserId a).data = (mkUserId b).data := congrArg String.data h
  rw [mkUserId_data, mkUserId_data] at hd
  have hpad := List.append_cancel_left hd
  have := congrArg digitsVal hpad
  rwa [digitsVal_padded, digitsVal_padded] at this

theorem generateUserId_mkUserId {users : List User} {lastUser : User} {k : Nat}
    (hlast : users.getLast? = some lastUser) (hid : lastUser.id = mkUserId k) :
    generateUserId users = mkUserId (k + 1) := by
  have h := generateUserId_alloc.2 users lastUser
    ((jsPadStart 3 '0' ⟨natToChars k⟩).data) hlast
    (by rw [hid]; exact mkUserId_data k)
    (padded_ne_nil k) (padded_all_digits k)
  rw [h, digitsVal_padded]
  rfl

theorem register_ids {users : List User} {k : Nat} (inp : RegInput)
    (h : idsOf users = (List.range' 1 k).map mkUserId) :
    idsOf (registerRoute users inp).2 = (List.range' 1 k).map mkUserId ∨
    idsOf (registerRoute users inp).2 = (List.range' 1 (k + 1)).map mkUserId := by
  have hgen : generateUserId users = mkUserId (k + 1) := by
    cases k with
    | zero =>
      have husers : users = [] := by
        have : idsOf users = [] := by simpa using h
        simpa [idsOf] using this
      subst husers
      rfl
    | succ m =>
      have hlast : (idsOf users).getLast? = some (mkUserId (m + 1)) := by
        rw [h, List.range'_concat, List.map_append]
        simp [Nat.add_comm]
      rw [idsOf, List.getLast?_map] at hlast
      obtain ⟨lastUser, hl, hlid⟩ := Option.map_eq_some'.mp hlast
      exact generateUserId_mkUserId hl hlid
  match hu : inp.username, he : inp.email, hp : inp.password with
  | some un, some em, some pw =>
    by_cases hempty : un = "" ∨ em = "" ∨ pw = ""
    · refine Or.inl ?_
      simp only [registerRoute, hu, he, hp, if_pos hempty]
      exact h
    · by_cases hdup : (users.find? fun u => u.username == un || u.email == em).isSome
      · refine Or.inl ?_
        simp only [registerRoute, hu, he, hp, if_neg hempty, if_pos hdup]
        exact h
      · refine Or.inr ?_
        simp only [registerRoute, hu, he, hp, if_neg hempty, if_neg hdup]
        show idsOf (insertUserSorted users _) = _
        rw [insertUserSorted, idsOf, List.map_append, ← idsOf, h]
        rw [List.range'_concat, List.map_append]
        simp [hgen, Nat.add_comm]
  | some un, some em, none =>
    refine Or.inl ?_
    simp only [registerRoute, hu, he, hp]
    exact h
  | some un, none, _ =>
    refine Or.inl ?_
    simp only [registerRoute, hu, he]
    exact h
  | none, _, _ =>
    refine Or.inl ?_
    simp only [registerRoute, hu]
    exact h

theorem storeAfter_ids (f : Nat → RegInput) :
    ∀ n, ∃ k, k ≤ n ∧ idsOf (storeAfter f n) = (List.range' 1 k).map mkUserId := by
  intro n
  induction n with
  | zero => exact ⟨0, le_refl 0, rfl⟩
  | succ n ih =>
    obtain ⟨k, hk, hids⟩ := ih
    rcases register_ids (f n) hids with h | h
    · exact ⟨k, by omega, h⟩
    · exact ⟨k + 1, by omega, h⟩

theorem natToCharsGo_small {fuel m : Nat} (hfuel : 1 ≤ fuel) (hm : m < 10) :
    natToCharsGo fuel m = [digitChar m] := by
  cases fuel with
  | zero => omega
  | succ fuel => simp [natToCharsGo, hm]

theorem natToCharsGo_fuel_irrelevant :
    ∀ fuel₁ fuel₂ m, m < fuel₁ → m < fuel₂ →
      natToCharsGo fuel₁ m = natToCharsGo fuel₂ m := by
  intro fuel₁
  induction fuel₁ with
  | zero => intro fuel₂ m h1 h2; omega
  | succ fuel₁ ih =>
    intro fuel₂ m h1 h2
    cases fuel₂ with
    | zero => omega
    | succ fuel₂ =>
      by_cases hm : m < 10
      · simp [natToCharsGo, hm]
      · simp only [natToCharsGo, if_neg hm]
        rw [ih fuel₂ (m / 10) (by omega) (by omega)]

theorem natToChars_step {k : Nat} (h : 10 ≤ k) :
    natToChars k = natToChars (k / 10) ++ [digitChar (k % 10)] := by
  show natToCharsGo (k + 1) k = _
  simp only [natToCharsGo, if_neg (by omega : ¬ k < 10)]
  rw [natToCharsGo_fuel_irrelevant k (k / 10 + 1) (k / 10) (by omega) (by omega)]
  rfl

theorem natToChars_small {k : Nat} (h : k < 10) : natToChars k = [digitChar k] := by
  show natToCharsGo (k + 1) k = _
  exact natToCharsGo_small (by omega) h

theorem padded_three_digits {k : Nat} (h1 : 1 ≤ k) (h2 : k ≤ 999) :
    (jsPadStart 3 '0' ⟨natToChars k⟩).data =
      [digitChar (k / 100), digitChar (k / 10 % 10), digitChar (k % 10)] := by
  rw [padded_data]
  by_cases ha : k < 10
  · rw [natToChars_small ha]
    have h100 : k / 100 = 0 := by omega
    have h10 : k / 10 % 10 = 0 := by omega
    have hk : k % 10 = k := by omega
    rw [h100, h10, hk]
    rfl
  · by_cases hb : k < 100
    · rw [natToChars_step (by omega), natToChars_small (by omega : k / 10 < 10)]
      have h100 : k / 100 = 0 := by omega
      have h10 : k / 10 % 10 = k / 10 := by omega
      rw [h100, h10]
      rfl
    · rw [natToChars_step (by omega), natToChars_step (by omega : 10 ≤ k / 10),
        natToChars_small (by omega : k / 10 / 10 < 10)]
      have hdd : k / 10 / 10 = k / 100 := by omega
      rw [hdd]
      rfl

theorem digitChar_lt {a b : Nat} (hab : a < b) (hb : b < 10) :
    digitChar a < digitChar b := by
  have ha : a < 10 := by omega
  interval_cases a <;> interval_cases b <;> decide

theorem lex_append_left {r : Char → Char → Prop} (pre : List Char)
    {a b : List Char} (h : List.Lex r a b) :
    List.Lex r (pre ++ a) (pre ++ b) := by
  induction pre with
  | nil => exact h
  | cons c rest ih => exact List.Lex.cons ih

theorem mkUserId_lt {i j : Nat} (h1 : 1 ≤ i) (hij : i < j) (h999 : j ≤ 999) :
    jsStrLt (mkUserId i) (mkUserId j) := by
  show (mkUserId i).data < (mkUserId j).data
  rw [mkUserId_data, mkUserId_data,
    padded_three_digits h1 (by omega), padded_three_digits (by omega) h999]
  show List.Lex (· < ·) _ _
  apply lex_append_left
  by_cases hc100 : i / 100 < j / 100
  · exact List.Lex.rel (digitChar_lt hc100 (by omega))
  · have he100 : i / 100 = j / 100 := by omega
    rw [he100]
    apply List.Lex.cons
    by_cases hc10 : i / 10 % 10 < j / 10 % 10
    · exact List.Lex.rel (digitChar_lt hc10 (by omega))
    · have he10 : i / 10 % 10 = j / 10 % 10 := by omega
      rw [he10]
      apply List.Lex.cons
      have hc1 : i % 10 < j % 10 := by omega
      exact List.Lex.rel (digitChar_lt hc1 (by omega))

theorem natToChars_inj : Function.Injective natToChars := by
  intro a b h
  have := congrArg digitsVal h
  rwa [digitsVal_natToChars, digitsVal_natToChars] at this

theorem storeAfter_regSeq :
    ∀ n, storeAfter regSeq n = (List.range n).map mkStoredUser := by
  intro n
  induction n with
  | zero => rfl
  | succ n ih =>
    show (registerRoute (storeAfter regSeq n) (regSeq n)).2 = _
    rw [ih]
    have hu : (regSeq n).username = some ⟨'u' :: natToChars n⟩ := rfl
    have he : (regSeq n).email = some ⟨'e' :: natToChars n⟩ := rfl
    have hp : (regSeq n).password = some "p" := rfl
    have hempty : ¬ ((⟨'u' :: natToChars n⟩ : String) = "" ∨
        (⟨'e' :: natToChars n⟩ : String) = "" ∨ ("p" : String) = "") := by
      rintro (h | h | h)
      · have := congrArg String.data h
        simp at this
      · have := congrArg String.data h
        simp at this
      · exact absurd h (by decide)
    have hfind : (List.map mkStoredUser (List.range n)).find?
        (fun u => u.username == (⟨'u' :: natToChars n⟩ : String) ||
          u.email == (⟨'e' :: natToChars n⟩ : String)) = none := by
      rw [List.find?_eq_none]
      intro x hx
      obtain ⟨i, hi, rfl⟩ := List.mem_map.mp hx
      have hin : i < n := List.mem_range.mp hi
      simp only [mkStoredUser, Bool.or_eq_true, beq_iff_eq]
      rintro (h | h)
      · have := congrArg String.data h
        simp only [String.data] at this
        have := List.tail_eq_of_cons_eq this
        exact absurd (natToChars_inj this) (by omega)
      · have := congrArg String.data h
        simp only [String.data] at this
        have := List.tail_eq_of_cons_eq this
        exact absurd (natToChars_inj this) (by omega)
    have hdup : ¬ ((List.map mkStoredUser (List.range n)).find?
        (fun u => u.username == (⟨'u' :: natToChars n⟩ : String) ||
          u.email == (⟨'e' :: natToChars n⟩ : String))).isSome = true := by
      rw [hfind]
      simp
    have hgen : generateUserId (List.map mkStoredUser (List.range n)) =
        mkUserId (n + 1) := by
      cases n with
      | zero => rfl
      | succ m =>
        have hlast : (List.map mkStoredUser (List.range (m + 1))).getLast? =
            some (mkStoredUser m) := by
          rw [List.range_succ, List.map_append]
          exact List.getLast?_concat _
        exact generateUserId_mkUserId hlast rfl
    simp only [registerRoute, hu, he, hp, if_neg hempty, if_neg hdup]
    show insertUserSorted _ _ = _
    rw [insertUserSorted, List.range_succ, List.map_append]
    congr 1
    simp only [List.map_cons, List.map_nil]
    congr 1
    simp only [mkStoredUser, hgen]
    rfl

/-! ## Claim C6: registrations keep the store sorted and ids unique -/

/-- Claim C6, counterexample: after 1000 sequentially executed
successful registrations from the empty store, the collection is no
longer sorted by id string — the 1000th id `"user_1000"` compares below
`"user_999"` lexicographically, so the 1000th registration does not
preserve sortedness-by-id. -/
theorem thousand_registrations_break_sortedness :
    ¬ sortedById (storeAfter regSeq 1000) := by
  rw [storeAfter_regSeq]
  intro hsorted
  have h := List.pairwise_iff_getElem.mp hsorted 998 999 (by simp) (by simp) (by omega)
  simp only [List.getElem_map, List.getElem_range] at h
  exact absurd h (by decide)

/-- Claim C6 (amended): every sequence of sequentially executed
registrations from the empty store keeps the stored ids unique, and
keeps the collection sorted by id string as long as it holds at most
999 users; the 1000th registration allocates `"user_1000"`, which
sorts before `"user_999"` as a string, breaking the sort invariant
(ids remain unique). -/
theorem registrations_unique_and_sorted_up_to_999 :
    ∀ (f : Nat → RegInput) (n : Nat),
      uniqueIds (storeAfter f n) ∧
      ((storeAfter f n).length ≤ 999 → sortedById (storeAfter f n)) := by
  intro f n
  obtain ⟨k, hk, hids⟩ := storeAfter_ids f n
  have hklen : (storeAfter f n).length = k := by
    have := congrArg List.length hids
    simpa [idsOf] using this
  constructor
  · show (idsOf _).Nodup
    rw [hids]
    exact List.Nodup.map mkUserId_inj (List.nodup_range' 1 k)
  · intro hlen
    have hk999 : k ≤ 999 := by omega
    have hpw : List.Pairwise (fun a b : String => jsStrLt a b)
        (idsOf (storeAfter f n)) := by
      rw [hids, List.pairwise_map, List.pairwise_iff_getElem]
      intro i j hi hj hij
      rw [List.getElem_range', List.getElem_range']
      have hjk : j < k := by
        have := hj
        simpa [List.length_range'] using this
      exact mkUserId_lt (by omega) (by omega) (by omega)
    rw [idsOf, List.pairwise_map] at hpw
    exact hpw

/-- Witness for the amended C6 theorem after two concrete
registrations. -/
theorem registrations_unique_and_sorted_up_to_999_witness :
    uniqueIds (storeAfter regSeq 2) ∧ sortedById (storeAfter regSeq 2) :=
  ⟨(registrations_unique_and_sorted_up_to_999 regSeq 2).1,
   (registrations_unique_and_sorted_up_to_999 regSeq 2).2 (by decide)⟩

end NoteSmith
